import Mathlib

/-!
# Syntax tree and symbol table of the compiler front end

A shallow embedding of `src/Compiler/SyntaxTree.c` (declarations in
`src/SyntaxTree.h`) and the properties proved about it.

Conventions of the embedding

* A C string (`char*` that is never `NULL` where the code dereferences it) is a
  `String`; `strcmp(a, b) == 0` is `a = b`, `strdup` is the identity.
* A pointer that the code tests against `NULL` is an `Option`.
* The `next`-linked chain of `SymbolEntry` records that starts at
  `table->head` is the `List SymbolEntry` of the records in chain order.
  A `SymbolEntry*` into the chain is the position of the record in the chain.
* `int` fields are `Int`.  The only arithmetic on them in the symbol table is
  `table->count++`, embedded as `count + 1` on `Int` (C leaves a signed
  increment out of range undefined, so the embedding speaks about the
  executions where the increment is defined).  The sums `level + 1` and
  `position + (i * 4)` of the printers are sums on `Int` in the same way.
* Mutation through a pointer becomes explicit state passing: a function that
  writes through its table (or node) argument returns the new state of that
  argument.
-/

namespace SyntaxTree

/-! ## Symbol table: data model -/

/-- One record of the chain (`struct SymbolEntry` without its `next` link). -/
structure SymbolEntry where
  name : String
  type : String
  value : Int
  lineNumber : Int
  deriving DecidableEq, Repr

/-- The table structure: `head` is the chain, `count` the counter field. -/
structure SymbolTable where
  head : List SymbolEntry
  count : Int
  deriving DecidableEq, Repr

/-- Contents of the record a `SymbolEntry*` points to: the record at that
position of the chain, when the pointer is not `NULL` and the table exists. -/
def deref (table : Option SymbolTable) (ptr : Option Nat) : Option SymbolEntry :=
  match table, ptr with
  | some t, some i => t.head[i]?
  | _, _ => none

/-! ## Symbol table: operations -/

/-- Function `createSymbolTable`: empty chain, counter 0. -/
def createSymbolTable : Option SymbolTable :=
  some { head := [], count := 0 }

/-- The `while (current)` loop of `lookupSymbol`.  `chain` is the chain from
`current` on and `pos` the position of `current`; the result is the position
of the record returned, `none` for `NULL`. -/
def lookupLoop (name : String) : List SymbolEntry → Nat → Option Nat
  | [], _ => none
  | current :: next, pos =>
    if current.name = name then some pos else lookupLoop name next (pos + 1)

/-- Function `lookupSymbol`: `NULL` for an absent table, else the scan from `head`. -/
def lookupSymbol (table : Option SymbolTable) (name : String) : Option Nat :=
  match table with
  | none => none
  | some t => lookupLoop name t.head 0

/-- The store `entry->value = value` through a pointer into the chain: the
record at position `ptr` gets the new value, everything else is kept. -/
def storeValue : List SymbolEntry → Nat → Int → List SymbolEntry
  | [], _, _ => []
  | e :: rest, 0, value => { e with value := value } :: rest
  | e :: rest, ptr + 1, value => e :: storeValue rest ptr value

/-- Function `insertSymbol`: nothing for an absent table; a store to the value field of
the record `lookupSymbol` finds; otherwise a new record linked in front of
`head` and `count++`. -/
def insertSymbol (table : Option SymbolTable) (name type : String)
    (value lineNumber : Int) : Option SymbolTable :=
  match table with
  | none => none
  | some t =>
    match lookupSymbol (some t) name with
    | some existing => some { t with head := storeValue t.head existing value }
    | none =>
      some { head := { name := name, type := type, value := value,
                       lineNumber := lineNumber } :: t.head,
             count := t.count + 1 }

/-- Function `updateSymbolValue`: a store to the value field of the record
`lookupSymbol` finds, nothing when it finds none. -/
def updateSymbolValue (table : Option SymbolTable) (name : String)
    (value : Int) : Option SymbolTable :=
  match lookupSymbol table name with
  | some entry =>
    match table with
    | some t => some { t with head := storeValue t.head entry value }
    | none => none
  | none => table

/-- One call of the mutating interface of the symbol table. -/
inductive SymbolCall where
  | insert (name type : String) (value lineNumber : Int)
  | update (name : String) (value : Int)
  deriving DecidableEq, Repr

/-- Effect of one call on the table. -/
def SymbolCall.run (table : Option SymbolTable) : SymbolCall → Option SymbolTable
  | .insert name type value lineNumber => insertSymbol table name type value lineNumber
  | .update name value => updateSymbolValue table name value

/-- The table after `createSymbolTable()` followed by the calls, in order. -/
def runCalls (calls : List SymbolCall) : Option SymbolTable :=
  calls.foldl SymbolCall.run createSymbolTable

/-- Names of the records of a table, in chain order (none for an absent table). -/
def entryNames (table : Option SymbolTable) : List String :=
  match table with
  | none => []
  | some t => t.head.map SymbolEntry.name

/-! ## Syntax tree: data model -/

/-- The enumeration `NodeType`. -/
inductive NodeType where
  | NODE_PROGRAM
  | NODE_DECLARATION
  | NODE_ASSIGNMENT
  | NODE_IF_STATEMENT
  | NODE_EXPRESSION
  | NODE_BINARY_OP
  | NODE_INTEGER
  | NODE_IDENTIFIER
  | NODE_TYPE
  | NODE_SEMICOLON
  | NODE_COLON
  | NODE_CONDITION
  deriving DecidableEq, Repr

/-- A value of type `TreeNode*`: `null`, or the address of a record, given by
the fields of the record.  `c0 .. c3` are the slots `children[0] ..
children[3]`, themselves values of type `TreeNode*`; `value` is `none` for a
`NULL` text.  A node owns its children (no sharing, no cycles), so the record
is identified with the tree below it. -/
inductive TreeNode where
  | null : TreeNode
  | node (type : NodeType) (value : Option String) (intValue : Int)
      (c0 c1 c2 c3 : TreeNode) (childCount : Int) : TreeNode
  deriving DecidableEq, Repr

namespace TreeNode

/-- The field `childCount` (0 for `NULL`, which has no record). -/
def count : TreeNode → Int
  | null => 0
  | node _ _ _ _ _ _ _ childCount => childCount

/-- The slot `children[i]`, for `i` within the array. -/
def slot : TreeNode → Nat → TreeNode
  | node _ _ _ c0 _ _ _ _, 0 => c0
  | node _ _ _ _ c1 _ _ _, 1 => c1
  | node _ _ _ _ _ c2 _ _, 2 => c2
  | node _ _ _ _ _ _ c3 _, 3 => c3
  | _, _ => null

/-- The child sequence `children[0], .., children[childCount - 1]`, as the
loops `for (i = 0; i < node->childCount; i++)` visit it (the array has four
slots; the code never makes `childCount` larger). -/
def children : TreeNode → List TreeNode
  | null => []
  | node _ _ _ c0 c1 c2 c3 childCount =>
    (if 0 < childCount then [c0] else []) ++ (if 1 < childCount then [c1] else []) ++
    (if 2 < childCount then [c2] else []) ++ (if 3 < childCount then [c3] else [])

/-- The store `node->children[i] = child`.  A store outside the array is
undefined in C; the embedding then leaves the record as it is. -/
def storeChild : TreeNode → Int → TreeNode → TreeNode
  | null, _, _ => null
  | node type value intValue c0 c1 c2 c3 childCount, i, child =>
    if i = 0 then node type value intValue child c1 c2 c3 childCount
    else if i = 1 then node type value intValue c0 child c2 c3 childCount
    else if i = 2 then node type value intValue c0 c1 child c3 childCount
    else if i = 3 then node type value intValue c0 c1 c2 child childCount
    else node type value intValue c0 c1 c2 c3 childCount

/-- The store `node->childCount = n`. -/
def storeCount : TreeNode → Int → TreeNode
  | null, _ => null
  | node type value intValue c0 c1 c2 c3 _, n => node type value intValue c0 c1 c2 c3 n

/-- The store `node->intValue = n`. -/
def storeIntValue : TreeNode → Int → TreeNode
  | null, _ => null
  | node type value _ c0 c1 c2 c3 childCount, n => node type value n c0 c1 c2 c3 childCount

/-- All records reachable from a pointer through non-`NULL` slots, the record
itself first. -/
def subtree : TreeNode → List TreeNode
  | null => []
  | node type value intValue c0 c1 c2 c3 childCount =>
    node type value intValue c0 c1 c2 c3 childCount ::
      (subtree c0 ++ subtree c1 ++ subtree c2 ++ subtree c3)

/-- The records of a tree in depth-first pre-order: a record, then the
pre-order of `children[0]`, .., `children[childCount - 1]` (the order in which
`printTree` and `printTreeFormatted` visit them). -/
def preorder : TreeNode → List TreeNode
  | null => []
  | node type value intValue c0 c1 c2 c3 childCount =>
    node type value intValue c0 c1 c2 c3 childCount ::
      ((if 0 < childCount then preorder c0 else []) ++
       (if 1 < childCount then preorder c1 else []) ++
       (if 2 < childCount then preorder c2 else []) ++
       (if 3 < childCount then preorder c3 else []))

/-- Number of non-`NULL` slots of a record. -/
def nonNullSlots : TreeNode → Nat
  | null => 0
  | node _ _ _ c0 c1 c2 c3 _ =>
    (if c0 = null then 0 else 1) + (if c1 = null then 0 else 1) +
    (if c2 = null then 0 else 1) + (if c3 = null then 0 else 1)

end TreeNode

/-! ## Syntax tree: builders -/

/-- Function `createNode`: a fresh record with the given kind, a copy of the text (or
`NULL`), `intValue` 0, `childCount` 0 and four `NULL` slots. -/
def createNode (type : NodeType) (value : Option String) : TreeNode :=
  .node type value 0 .null .null .null .null 0

/-- Function `addChild`: when parent and child are not `NULL` and `childCount < 4`,
`parent->children[parent->childCount++] = child`; otherwise nothing.  The
result is the parent after the call. -/
def addChild (parent child : TreeNode) : TreeNode :=
  if parent ≠ .null ∧ child ≠ .null ∧ parent.count < 4 then
    (parent.storeChild parent.count child).storeCount (parent.count + 1)
  else parent

/-- Function `createIntNode`: `createNode(NODE_INTEGER, NULL)`, then the store of
`intValue`. -/
def createIntNode (value : Int) : TreeNode :=
  (createNode .NODE_INTEGER none).storeIntValue value

/-- Function `createBinaryOpNode`: a `NODE_BINARY_OP` record with text `op`, then
`addChild` of `left` and of `right`. -/
def createBinaryOpNode (op : Option String) (left right : TreeNode) : TreeNode :=
  let node := createNode .NODE_BINARY_OP op
  let node := addChild node left
  let node := addChild node right
  node

/-- Function `createDeclarationNode`, statement by statement. -/
def createDeclarationNode (typeNode varNode exprNode : TreeNode) : TreeNode :=
  let decNode := createNode .NODE_DECLARATION (some "dec")
  let exprParent := createNode .NODE_EXPRESSION (some "expr")
  let innerExpr := createNode .NODE_EXPRESSION (some "expr")
  let innerExpr := addChild innerExpr typeNode
  let innerExpr := addChild innerExpr varNode
  let exprParent := addChild exprParent innerExpr
  let exprParent := addChild exprParent (createNode .NODE_BINARY_OP (some "="))
  let exprParent := addChild exprParent exprNode
  let semicolon := createNode .NODE_SEMICOLON (some ";")
  let decNode := addChild decNode exprParent
  let decNode := addChild decNode semicolon
  decNode

/-- Function `createIfNode`, statement by statement; `body` is not used by the code. -/
def createIfNode (condition _body : TreeNode) : TreeNode :=
  let decNode := createNode .NODE_DECLARATION (some "dec")
  let ifStat := createNode .NODE_IF_STATEMENT (some "if_stat")
  let ifKeyword := createNode .NODE_IDENTIFIER (some "if")
  let openParen := createNode .NODE_IDENTIFIER (some "(")
  let closeParen := createNode .NODE_IDENTIFIER (some ")")
  let ifStat := addChild ifStat ifKeyword
  let ifStat := addChild ifStat openParen
  let ifStat := addChild ifStat condition
  let ifStat := addChild ifStat closeParen
  let colon := createNode .NODE_COLON (some ":")
  let decNode := addChild decNode ifStat
  let decNode := addChild decNode colon
  decNode

/-- A finite sequence of calls of the tree interface that ends in a
`TreeNode*`: each argument of a call is `NULL` or the result of an earlier
part of the sequence.  `addChild parent child` stands for the parent after
the call.  Every node is built before it is attached, as ownership of a child
passes to its parent on attachment. -/
inductive Build where
  | null
  | createNode (type : NodeType) (value : Option String)
  | createIntNode (value : Int)
  | createBinaryOpNode (op : Option String) (left right : Build)
  | createDeclarationNode (typeNode varNode exprNode : Build)
  | createIfNode (condition body : Build)
  | addChild (parent child : Build)
  deriving Repr

/-- The node a sequence of calls produces. -/
def Build.eval : Build → TreeNode
  | .null => .null
  | .createNode type value => SyntaxTree.createNode type value
  | .createIntNode value => SyntaxTree.createIntNode value
  | .createBinaryOpNode op left right =>
    SyntaxTree.createBinaryOpNode op left.eval right.eval
  | .createDeclarationNode typeNode varNode exprNode =>
    SyntaxTree.createDeclarationNode typeNode.eval varNode.eval exprNode.eval
  | .createIfNode condition body => SyntaxTree.createIfNode condition.eval body.eval
  | .addChild parent child => SyntaxTree.addChild parent.eval child.eval

/-- The child-count invariant of one record: `childCount` is between 0 and 4,
the slots below `childCount` are not `NULL`, the slots from `childCount` on
are `NULL`, and `childCount` is the number of non-`NULL` slots. -/
def ChildCountInvariant (n : TreeNode) : Prop :=
  0 ≤ n.count ∧ n.count ≤ 4 ∧
  (∀ i : Nat, i < 4 → (i : Int) < n.count → n.slot i ≠ .null) ∧
  (∀ i : Nat, i < 4 → n.count ≤ (i : Int) → n.slot i = .null) ∧
  n.count = (n.nonNullSlots : Int)

/-! ## Output of the printers

A printer writes to its `FILE*` by successive `fprintf` calls; the embedding
of a printer returns the text it writes, the texts of successive calls
appended in order.  One `Char` of a `String` stands for one `char`. -/

/-- The texts of successive `fprintf` calls, appended in order. -/
def emitAll : List String → String
  | [] => ""
  | s :: rest => s ++ emitAll rest

/-- The conversion `%d` of `fprintf`: the decimal digits of the absolute
value, after a minus sign for a negative number. -/
def formatInt (v : Int) : String :=
  if v < 0 then "-" ++ Nat.repr v.natAbs else Nat.repr v.natAbs

/-- The conversions `%-10s`, `%-6s`, `%-8d`, `%-4d` of `fprintf` on an
already converted text: the text, then spaces up to the field width (a
longer text is written whole). -/
def leftJustify (s : String) (width : Nat) : String :=
  s ++ String.mk (List.replicate (width - s.length) ' ')

/-- Function `printTreeIndent`: the loop writes `level` times a block of five
spaces (not at all for a level below 1). -/
def printTreeIndent (level : Int) : String :=
  emitAll (List.replicate level.toNat "     ")

/-- Function `getNodeTypeName`.  The `default` case of the switch is not
reached by a value of the enumeration. -/
def getNodeTypeName : NodeType → String
  | .NODE_PROGRAM => "program"
  | .NODE_DECLARATION => "dec"
  | .NODE_ASSIGNMENT => "assignment"
  | .NODE_IF_STATEMENT => "if_stat"
  | .NODE_EXPRESSION => "expr"
  | .NODE_BINARY_OP => "op"
  | .NODE_INTEGER => "num"
  | .NODE_IDENTIFIER => "id"
  | .NODE_TYPE => "type"
  | .NODE_SEMICOLON => ";"
  | .NODE_COLON => ":"
  | .NODE_CONDITION => "cond"

/-- The text of a node as `printTree` and `printTreeFormatted` both write it,
by the chain `if (node->value) .. else if (node->type == NODE_INTEGER) ..
else ..`: the text payload, else the integer payload under `%d`, else the
name of the kind. -/
def displayText : TreeNode → String
  | .null => ""
  | .node type value intValue _ _ _ _ _ =>
    match value with
    | some text => text
    | none => if type = .NODE_INTEGER then formatInt intValue else getNodeTypeName type

/-- The body of the branch-line loop of `printTree` at index `i`. -/
def branchGlyph (childCount : Int) (i : Nat) : String :=
  if i = 0 then "/"
  else if (i : Int) = childCount - 1 then "   \\"
  else "   |"

/-- The branch-line loop of `printTree`: `for (i = 0; i < childCount; i++)`. -/
def branchLine (childCount : Int) : String :=
  emitAll ((List.range childCount.toNat).map (branchGlyph childCount))

/-- Function `printTree`.  The loop over the children visits the slots below
`childCount` and passes `level` on as it is. -/
def printTree : TreeNode → Int → String
  | .null, _ => ""
  | .node type value intValue c0 c1 c2 c3 childCount, level =>
    printTreeIndent level ++
    (displayText (.node type value intValue c0 c1 c2 c3 childCount) ++ "\n") ++
    (if childCount > 0 then
      printTreeIndent level ++ branchLine childCount ++ "\n" ++
      ((if 0 < childCount then printTree c0 level else "") ++
       (if 1 < childCount then printTree c1 level else "") ++
       (if 2 < childCount then printTree c2 level else "") ++
       (if 3 < childCount then printTree c3 level else ""))
    else "")

/-- The loop `for (i = 0; i < position; i++) fprintf(output, " ")` of
`printTreeFormatted`. -/
def printSpaces (position : Int) : String :=
  emitAll (List.replicate position.toNat " ")

/-- The branch symbols `printTreeFormatted` writes under a node with children,
chosen by `childCount`. -/
def branchSymbols (childCount : Int) : String :=
  if childCount = 1 then "|\n"
  else if childCount = 2 then "/   \\\n"
  else if childCount = 3 then "/ | \\\n"
  else "/ / | \\\n"

/-- Function `printTreeFormatted`.  Child `i` is printed at `level + 1` and
`position + (i * 4)`. -/
def printTreeFormatted : TreeNode → Int → Int → String
  | .null, _, _ => ""
  | .node type value intValue c0 c1 c2 c3 childCount, level, position =>
    printSpaces position ++
    displayText (.node type value intValue c0 c1 c2 c3 childCount) ++ "\n" ++
    (if childCount > 0 then
      printSpaces position ++ branchSymbols childCount ++
      ((if 0 < childCount then printTreeFormatted c0 (level + 1) (position + (0 * 4)) else "") ++
       (if 1 < childCount then printTreeFormatted c1 (level + 1) (position + (1 * 4)) else "") ++
       (if 2 < childCount then printTreeFormatted c2 (level + 1) (position + (2 * 4)) else "") ++
       (if 3 < childCount then printTreeFormatted c3 (level + 1) (position + (3 * 4)) else ""))
    else "")

/-- The row `printSymbolTable` writes for one entry, by the format
`"| %-10s | %-6s | %-8d | %-4d |\n"`. -/
def entryRow (current : SymbolEntry) : String :=
  "| " ++ leftJustify current.name 10 ++ " | " ++ leftJustify current.type 6 ++ " | " ++
    leftJustify (formatInt current.value) 8 ++ " | " ++
    leftJustify (formatInt current.lineNumber) 4 ++ " |\n"

/-- The `while (current)` loop of `printSymbolTable`: one row per entry of the
chain, in chain order. -/
def printEntries : List SymbolEntry → String
  | [] => ""
  | current :: next => entryRow current ++ printEntries next

/-- The header row of `printSymbolTable`, by the format
`"| %-10s | %-6s | %-8s | %-4s |\n"` on the four column titles. -/
def headerRow : String :=
  "| " ++ leftJustify "Name" 10 ++ " | " ++ leftJustify "Type" 6 ++ " | " ++
    leftJustify "Value" 8 ++ " | " ++ leftJustify "Line" 4 ++ " |\n"

/-- The separator row of `printSymbolTable`. -/
def separatorRow : String := "|------------|--------|----------|------|\n"

/-- The row `printSymbolTable` writes for a table without entries. -/
def emptyRow : String := "| (empty)                              |\n"

/-- Function `printSymbolTable`: opening banner, header row, separator row,
the "(empty)" row when `!table || !table->head` and the rows of the chain
otherwise, closing banner. -/
def printSymbolTable (table : Option SymbolTable) : String :=
  "\n========== SYMBOL TABLE ==========\n" ++ headerRow ++ separatorRow ++
  (match table with
   | none => emptyRow
   | some t =>
     match t.head with
     | [] => emptyRow
     | current :: next => printEntries (current :: next)) ++
  "==================================\n\n"

/-- The width of a row: the number of characters before its line break. -/
def rowWidth (row : String) : Nat :=
  (row.toList.takeWhile (fun c => c ≠ '\n')).length

/-- The names `insertSymbol` has been called with, in call order. -/
def insertedNames : List SymbolCall → List String
  | [] => []
  | .insert name _ _ _ :: rest => name :: insertedNames rest
  | .update _ _ :: rest => insertedNames rest

/-- The `insertSymbol` call that records an entry. -/
def insertCall (e : SymbolEntry) : SymbolCall :=
  .insert e.name e.type e.value e.lineNumber

/-- The connector line in the wording of the specification, for comparison
with `branchLine`: "/" for the first child, "|" for every middle child and
"\" for the last child when there are at least two, with nothing between the
glyphs. -/
def adjacentConnector (n : Nat) : String :=
  emitAll ((List.range n).map
    (fun i => if i = 0 then "/" else if i + 1 = n then "\\" else "|"))

/-! ## Symbol table: checks of the operations on small inputs -/

theorem runCalls_upsert_check :
    runCalls [.insert "x" "int" 1 5, .insert "x" "int" 99 5] =
      some { head := [⟨"x", "int", 99, 5⟩], count := 1 } := by decide

theorem lookupSymbol_second_check :
    lookupSymbol (runCalls [.insert "x" "int" 1 5, .insert "y" "int" 2 6]) "x" = some 1 := by
  decide

theorem lookupSymbol_case_sensitive_check :
    lookupSymbol (runCalls [.insert "x" "int" 1 5]) "X" = none := by decide

/-! ## Symbol table: lemmas on the scan and the store -/

theorem lookupLoop_none_iff (name : String) (chain : List SymbolEntry) (pos : Nat) :
    lookupLoop name chain pos = none ↔ ∀ e ∈ chain, e.name ≠ name := by
  induction chain generalizing pos with
  | nil => simp [lookupLoop]
  | cons e rest ih =>
    by_cases h : e.name = name
    · simp [lookupLoop, h]
    · simp [lookupLoop, h, ih]

theorem lookupLoop_some_iff (name : String) (chain : List SymbolEntry) (pos p : Nat) :
    lookupLoop name chain pos = some p ↔
      ∃ i e, p = pos + i ∧ chain[i]? = some e ∧ e.name = name ∧
        ∀ j e', j < i → chain[j]? = some e' → e'.name ≠ name := by
  induction chain generalizing pos with
  | nil => simp [lookupLoop]
  | cons c rest ih =>
    by_cases h : c.name = name
    · simp only [lookupLoop, h, if_true, Option.some.injEq]
      constructor
      · intro hp
        exact ⟨0, c, by omega, by simp, h, by intro j e' hj; omega⟩
      · rintro ⟨i, e, hp, hi, he, hfirst⟩
        cases i with
        | zero => omega
        | succ i => exact absurd h (hfirst 0 c (by omega) (by simp))
    · simp only [lookupLoop, h, if_false, ih]
      constructor
      · rintro ⟨i, e, hp, hi, he, hfirst⟩
        refine ⟨i + 1, e, by omega, by simpa using hi, he, ?_⟩
        intro j e' hj hj'
        cases j with
        | zero =>
          simp at hj'
          subst hj'
          exact h
        | succ j => exact hfirst j e' (by omega) (by simpa using hj')
      · rintro ⟨i, e, hp, hi, he, hfirst⟩
        cases i with
        | zero =>
          simp at hi
          subst hi
          exact absurd he h
        | succ i =>
          refine ⟨i, e, by omega, by simpa using hi, he, ?_⟩
          intro j e' hj hj'
          exact hfirst (j + 1) e' (by omega) (by simpa using hj')

theorem storeValue_length (chain : List SymbolEntry) (ptr : Nat) (value : Int) :
    (storeValue chain ptr value).length = chain.length := by
  induction chain generalizing ptr with
  | nil => simp [storeValue]
  | cons e rest ih => cases ptr <;> simp [storeValue, ih]

theorem storeValue_names (chain : List SymbolEntry) (ptr : Nat) (value : Int) :
    (storeValue chain ptr value).map SymbolEntry.name = chain.map SymbolEntry.name := by
  induction chain generalizing ptr with
  | nil => simp [storeValue]
  | cons e rest ih => cases ptr <;> simp [storeValue, ih]

theorem storeValue_get_same (chain : List SymbolEntry) (ptr : Nat) (value : Int) :
    (storeValue chain ptr value)[ptr]? =
      (chain[ptr]?).map (fun e => { e with value := value }) := by
  induction chain generalizing ptr with
  | nil => simp [storeValue]
  | cons e rest ih => cases ptr <;> simp [storeValue, ih]

theorem storeValue_get_other (chain : List SymbolEntry) (ptr j : Nat) (value : Int)
    (h : j ≠ ptr) : (storeValue chain ptr value)[j]? = chain[j]? := by
  induction chain generalizing ptr j with
  | nil => simp [storeValue]
  | cons e rest ih =>
    cases ptr with
    | zero =>
      cases j with
      | zero => exact absurd rfl h
      | succ j => simp [storeValue]
    | succ ptr =>
      cases j with
      | zero => simp [storeValue]
      | succ j => simpa [storeValue] using ih ptr j (by omega)

theorem lookupLoop_storeValue (name : String) (chain : List SymbolEntry)
    (ptr : Nat) (value : Int) (pos : Nat) :
    lookupLoop name (storeValue chain ptr value) pos = lookupLoop name chain pos := by
  induction chain generalizing ptr pos with
  | nil => simp [storeValue]
  | cons e rest ih => cases ptr <;> simp [storeValue, lookupLoop, ih]

theorem lookupSymbol_of_mem (t : SymbolTable) (n : String)
    (h : ∃ e ∈ t.head, e.name = n) :
    ∃ i e, lookupSymbol (some t) n = some i ∧ t.head[i]? = some e ∧ e.name = n := by
  cases hl : lookupLoop n t.head 0 with
  | none =>
    obtain ⟨e, he, hn⟩ := h
    exact absurd hn ((lookupLoop_none_iff n t.head 0).mp hl e he)
  | some i =>
    obtain ⟨k, e, hk, hi, hn, -⟩ := (lookupLoop_some_iff n t.head 0 i).mp hl
    have hki : k = i := by omega
    subst hki
    exact ⟨k, e, hl, hi, hn⟩

/-- The effect of a store through the pointer `i`, stated position by position. -/
theorem storeValue_frame (chain : List SymbolEntry) (i : Nat) (e : SymbolEntry)
    (value : Int) (hi : chain[i]? = some e) :
    (storeValue chain i value)[i]? = some { e with value := value } ∧
      (∀ j, j ≠ i → (storeValue chain i value)[j]? = chain[j]?) ∧
      (storeValue chain i value).length = chain.length := by
  refine ⟨?_, ?_, storeValue_length chain i value⟩
  · rw [storeValue_get_same, hi]; rfl
  · intro j hj
    exact storeValue_get_other chain i j value hj

theorem insertSymbol_names_nodup (table : Option SymbolTable) (name type : String)
    (value lineNumber : Int) (h : (entryNames table).Nodup) :
    (entryNames (insertSymbol table name type value lineNumber)).Nodup := by
  cases table with
  | none => simpa [insertSymbol] using h
  | some t =>
    cases hl : lookupLoop name t.head 0 with
    | some i =>
      simpa [insertSymbol, lookupSymbol, hl, entryNames, storeValue_names] using h
    | none =>
      have hfresh := (lookupLoop_none_iff name t.head 0).mp hl
      simp only [insertSymbol, lookupSymbol, hl, entryNames, List.map_cons,
        List.nodup_cons]
      refine ⟨?_, by simpa [entryNames] using h⟩
      intro hmem
      obtain ⟨e, he, hn⟩ := List.mem_map.mp hmem
      exact hfresh e he hn

theorem updateSymbolValue_names (table : Option SymbolTable) (name : String)
    (value : Int) :
    entryNames (updateSymbolValue table name value) = entryNames table := by
  cases table with
  | none => simp [updateSymbolValue, lookupSymbol]
  | some t =>
    cases hl : lookupLoop name t.head 0 with
    | some i => simp [updateSymbolValue, lookupSymbol, hl, entryNames, storeValue_names]
    | none => simp [updateSymbolValue, lookupSymbol, hl]

theorem foldl_run_names_nodup (calls : List SymbolCall) (table : Option SymbolTable)
    (h : (entryNames table).Nodup) :
    (entryNames (calls.foldl SymbolCall.run table)).Nodup := by
  induction calls generalizing table with
  | nil => simpa using h
  | cons c rest ih =>
    simp only [List.foldl_cons]
    apply ih
    cases c with
    | insert name type value lineNumber =>
      exact insertSymbol_names_nodup table name type value lineNumber h
    | update name value =>
      simpa [SymbolCall.run, updateSymbolValue_names] using h

theorem lookupSymbol_eq_none_iff (table : Option SymbolTable) (name : String) :
    lookupSymbol table name = none ↔
      table = none ∨ ∃ t, table = some t ∧ ∀ e ∈ t.head, e.name ≠ name := by
  cases table with
  | none => simp [lookupSymbol]
  | some t => simp [lookupSymbol, lookupLoop_none_iff]

theorem lookup_after_insertSymbol (t : SymbolTable) (n type : String) (v line : Int) :
    ∃ t', insertSymbol (some t) n type v line = some t' ∧
      (∃ e, deref (some t') (lookupSymbol (some t') n) = some e ∧
        e.name = n ∧ e.value = v) ∧
      ∀ m, m ≠ n →
        deref (some t') (lookupSymbol (some t') m) =
          deref (some t) (lookupSymbol (some t) m) := by
  cases hl : lookupLoop n t.head 0 with
  | some i =>
    obtain ⟨k, e, hk, hi, hn, -⟩ := (lookupLoop_some_iff n t.head 0 i).mp hl
    have hki : k = i := by omega
    subst hki
    obtain ⟨h1, h2, -⟩ := storeValue_frame t.head k e v hi
    refine ⟨{ t with head := storeValue t.head k v }, by simp [insertSymbol, lookupSymbol, hl],
      ⟨{ e with value := v }, ?_, hn, rfl⟩, ?_⟩
    · simp [lookupSymbol, lookupLoop_storeValue, hl, deref, h1]
    · intro m hm
      simp only [lookupSymbol, lookupLoop_storeValue]
      cases hlm : lookupLoop m t.head 0 with
      | none => simp [deref]
      | some j =>
        obtain ⟨k', e', hk', hj, hn', -⟩ := (lookupLoop_some_iff m t.head 0 j).mp hlm
        have hkj : k' = j := by omega
        subst hkj
        have hne : k' ≠ k := by
          intro hEq
          subst hEq
          rw [hi] at hj
          cases hj
          exact hm (hn'.symm.trans hn)
        simp [deref, h2 k' hne]
  | none =>
    refine ⟨{ head := { name := n, type := type, value := v, lineNumber := line } :: t.head,
              count := t.count + 1 }, by simp [insertSymbol, lookupSymbol, hl],
      ⟨{ name := n, type := type, value := v, lineNumber := line }, ?_, rfl, rfl⟩, ?_⟩
    · simp [lookupSymbol, lookupLoop, deref]
    · intro m hm
      have hnm : ¬ n = m := fun h => hm h.symm
      simp only [lookupSymbol, lookupLoop, hnm, if_false]
      cases hlm : lookupLoop m t.head 0 with
      | none =>
        have : lookupLoop m t.head (0 + 1) = none :=
          (lookupLoop_none_iff m t.head 1).mpr ((lookupLoop_none_iff m t.head 0).mp hlm)
        simp [this, deref]
      | some j =>
        obtain ⟨k', e', hk', hj, hn', hfirst⟩ := (lookupLoop_some_iff m t.head 0 j).mp hlm
        have : lookupLoop m t.head (0 + 1) = some (j + 1) :=
          (lookupLoop_some_iff m t.head 1 (j + 1)).mpr ⟨k', e', by omega, hj, hn', hfirst⟩
        simp [this, deref]

/-! ## Symbol table: the specification's statements -/

/-- C1: on a table that already holds an entry named `n`, `insertSymbol`
stores `v` in the value field of the entry `lookupSymbol` finds for `n` and
changes nothing else: that entry keeps its name, type and line number, every
other position of the chain holds the entry it held, the chain has the same
length (no entry is added) and the counter is unchanged. -/
theorem insertSymbol_existing_frame (t : SymbolTable) (n type : String)
    (v line : Int) (h : ∃ e ∈ t.head, e.name = n) :
    ∃ i e t', lookupSymbol (some t) n = some i ∧ t.head[i]? = some e ∧
      insertSymbol (some t) n type v line = some t' ∧
      t'.head[i]? = some { e with value := v } ∧
      (∀ j, j ≠ i → t'.head[j]? = t.head[j]?) ∧
      t'.head.length = t.head.length ∧
      t'.count = t.count := by
  obtain ⟨i, e, hl, hi, -⟩ := lookupSymbol_of_mem t n h
  obtain ⟨h1, h2, h3⟩ := storeValue_frame t.head i e v hi
  exact ⟨i, e, { t with head := storeValue t.head i v }, hl, hi,
    by simp [insertSymbol, hl], h1, h2, h3, rfl⟩

theorem insertSymbol_existing_frame_witness :
    ∃ i e t',
      lookupSymbol (some { head := [⟨"y", "int", 2, 6⟩, ⟨"x", "int", 1, 5⟩], count := 2 }) "x"
        = some i ∧
      (SymbolTable.mk [⟨"y", "int", 2, 6⟩, ⟨"x", "int", 1, 5⟩] 2).head[i]? = some e ∧
      insertSymbol (some { head := [⟨"y", "int", 2, 6⟩, ⟨"x", "int", 1, 5⟩], count := 2 })
        "x" "char" 99 7 = some t' ∧
      t'.head[i]? = some { e with value := 99 } ∧
      (∀ j, j ≠ i → t'.head[j]? =
        (SymbolTable.mk [⟨"y", "int", 2, 6⟩, ⟨"x", "int", 1, 5⟩] 2).head[j]?) ∧
      t'.head.length = (SymbolTable.mk [⟨"y", "int", 2, 6⟩, ⟨"x", "int", 1, 5⟩] 2).head.length ∧
      t'.count = (SymbolTable.mk [⟨"y", "int", 2, 6⟩, ⟨"x", "int", 1, 5⟩] 2).count :=
  insertSymbol_existing_frame { head := [⟨"y", "int", 2, 6⟩, ⟨"x", "int", 1, 5⟩], count := 2 }
    "x" "char" 99 7 ⟨⟨"x", "int", 1, 5⟩, by simp, rfl⟩

/-- C2: on a present table with no entry named `n`, `insertSymbol` yields the
table whose chain is the new entry `(n, type, v, line)` followed by the
previous chain, and whose counter is the previous counter plus one. -/
theorem insertSymbol_fresh (t : SymbolTable) (n type : String) (v line : Int)
    (h : ∀ e ∈ t.head, e.name ≠ n) :
    insertSymbol (some t) n type v line =
      some { head := { name := n, type := type, value := v, lineNumber := line } :: t.head,
             count := t.count + 1 } := by
  have hl : lookupSymbol (some t) n = none := (lookupLoop_none_iff n t.head 0).mpr h
  simp [insertSymbol, hl]

theorem insertSymbol_fresh_witness :
    insertSymbol (some { head := [⟨"x", "int", 1, 5⟩], count := 1 }) "y" "char" 2 6 =
      some { head := [⟨"y", "char", 2, 6⟩, ⟨"x", "int", 1, 5⟩], count := 1 + 1 } :=
  insertSymbol_fresh { head := [⟨"x", "int", 1, 5⟩], count := 1 } "y" "char" 2 6
    (by decide)

/-- C3: in every table obtained from `createSymbolTable()` by a finite
sequence of `insertSymbol` and `updateSymbolValue` calls with arbitrary
arguments, the names of the entries are pairwise distinct. -/
theorem runCalls_names_pairwise_distinct (calls : List SymbolCall) :
    (entryNames (runCalls calls)).Pairwise (fun a b => a ≠ b) :=
  foldl_run_names_nodup calls createSymbolTable (by simp [createSymbolTable, entryNames])

/-- C4: `lookupSymbol` returns the pointer to the first entry, in chain order
from the head, whose name equals `name` exactly; it returns `NULL` exactly
when the table is absent or no entry has that name, so a lookup of a name
that is not there returns `NULL` on every table. -/
theorem lookupSymbol_first_match (table : Option SymbolTable) (name : String) :
    (∀ p, lookupSymbol table name = some p ↔
      ∃ t e, table = some t ∧ t.head[p]? = some e ∧ e.name = name ∧
        ∀ j e', j < p → t.head[j]? = some e' → e'.name ≠ name) ∧
    (lookupSymbol table name = none ↔
      table = none ∨ ∃ t, table = some t ∧ ∀ e ∈ t.head, e.name ≠ name) := by
  cases table with
  | none => simp [lookupSymbol]
  | some t =>
    constructor
    · intro p
      simp only [lookupSymbol, lookupLoop_some_iff, Nat.zero_add, Option.some.injEq]
      constructor
      · rintro ⟨i, e, rfl, hi, hn, hfirst⟩
        exact ⟨t, e, rfl, hi, hn, hfirst⟩
      · rintro ⟨t', e, rfl, hi, hn, hfirst⟩
        exact ⟨p, e, rfl, hi, hn, hfirst⟩
    · exact lookupSymbol_eq_none_iff (some t) name

/-- C5: after `insertSymbol(table, n, type, v, line)` on a present table,
the entry `lookupSymbol` returns for `n` is present, has name `n` and value
`v`; and for every name `m` other than `n` the entry `lookupSymbol` returns
for `m` (absent, or its name, type, value and line) is the one it returned
before the insert. -/
theorem insertSymbol_then_lookup (t : SymbolTable) (n type : String) (v line : Int) :
    (∃ e, deref (insertSymbol (some t) n type v line)
        (lookupSymbol (insertSymbol (some t) n type v line) n) = some e ∧
      e.name = n ∧ e.value = v) ∧
    ∀ m, m ≠ n →
      deref (insertSymbol (some t) n type v line)
          (lookupSymbol (insertSymbol (some t) n type v line) m) =
        deref (some t) (lookupSymbol (some t) m) := by
  obtain ⟨t', h, h1, h2⟩ := lookup_after_insertSymbol t n type v line
  rw [h]
  exact ⟨h1, h2⟩

theorem insertSymbol_then_lookup_witness :
    (∃ e, deref (insertSymbol (some ⟨[⟨"y", "int", 2, 6⟩, ⟨"x", "int", 1, 5⟩], 2⟩) "x" "char" 99 7)
        (lookupSymbol
          (insertSymbol (some ⟨[⟨"y", "int", 2, 6⟩, ⟨"x", "int", 1, 5⟩], 2⟩) "x" "char" 99 7)
          "x") = some e ∧
      e.name = "x" ∧ e.value = 99) ∧
    deref (insertSymbol (some ⟨[⟨"y", "int", 2, 6⟩, ⟨"x", "int", 1, 5⟩], 2⟩) "x" "char" 99 7)
        (lookupSymbol
          (insertSymbol (some ⟨[⟨"y", "int", 2, 6⟩, ⟨"x", "int", 1, 5⟩], 2⟩) "x" "char" 99 7)
          "y") =
      deref (some ⟨[⟨"y", "int", 2, 6⟩, ⟨"x", "int", 1, 5⟩], 2⟩)
        (lookupSymbol (some ⟨[⟨"y", "int", 2, 6⟩, ⟨"x", "int", 1, 5⟩], 2⟩) "y") :=
  ⟨(insertSymbol_then_lookup ⟨[⟨"y", "int", 2, 6⟩, ⟨"x", "int", 1, 5⟩], 2⟩ "x" "char" 99 7).1,
   (insertSymbol_then_lookup ⟨[⟨"y", "int", 2, 6⟩, ⟨"x", "int", 1, 5⟩], 2⟩ "x" "char" 99 7).2
     "y" (by decide)⟩

/-- C6: `updateSymbolValue(table, name, newValue)` returns the table as it
was when the table is absent or no entry has that name; when an entry has
that name it stores `newValue` in the value field of the entry `lookupSymbol`
finds and changes nothing else (that entry's name, type and line number, the
entries at all other positions, the length of the chain and the counter). -/
theorem updateSymbolValue_frame (table : Option SymbolTable) (name : String)
    (newValue : Int) :
    ((table = none ∨ ∃ t, table = some t ∧ ∀ e ∈ t.head, e.name ≠ name) →
      updateSymbolValue table name newValue = table) ∧
    (∀ t, table = some t → (∃ e ∈ t.head, e.name = name) →
      ∃ i e t', lookupSymbol table name = some i ∧ t.head[i]? = some e ∧
        updateSymbolValue table name newValue = some t' ∧
        t'.head[i]? = some { e with value := newValue } ∧
        (∀ j, j ≠ i → t'.head[j]? = t.head[j]?) ∧
        t'.head.length = t.head.length ∧
        t'.count = t.count) := by
  constructor
  · intro h
    have hl : lookupSymbol table name = none :=
      (lookupSymbol_eq_none_iff table name).mpr h
    simp [updateSymbolValue, hl]
  · rintro t rfl h
    obtain ⟨i, e, hl, hi, -⟩ := lookupSymbol_of_mem t name h
    obtain ⟨h1, h2, h3⟩ := storeValue_frame t.head i e newValue hi
    exact ⟨i, e, { t with head := storeValue t.head i newValue }, hl, hi,
      by simp [updateSymbolValue, hl], h1, h2, h3, rfl⟩

theorem updateSymbolValue_frame_witness :
    updateSymbolValue (some ⟨[⟨"y", "int", 2, 6⟩, ⟨"x", "int", 1, 5⟩], 2⟩) "z" 99 =
        some ⟨[⟨"y", "int", 2, 6⟩, ⟨"x", "int", 1, 5⟩], 2⟩ ∧
    ∃ i e t',
      lookupSymbol (some ⟨[⟨"y", "int", 2, 6⟩, ⟨"x", "int", 1, 5⟩], 2⟩) "x" = some i ∧
      (SymbolTable.mk [⟨"y", "int", 2, 6⟩, ⟨"x", "int", 1, 5⟩] 2).head[i]? = some e ∧
      updateSymbolValue (some ⟨[⟨"y", "int", 2, 6⟩, ⟨"x", "int", 1, 5⟩], 2⟩) "x" 99 = some t' ∧
      t'.head[i]? = some { e with value := 99 } ∧
      (∀ j, j ≠ i → t'.head[j]? =
        (SymbolTable.mk [⟨"y", "int", 2, 6⟩, ⟨"x", "int", 1, 5⟩] 2).head[j]?) ∧
      t'.head.length = (SymbolTable.mk [⟨"y", "int", 2, 6⟩, ⟨"x", "int", 1, 5⟩] 2).head.length ∧
      t'.count = (SymbolTable.mk [⟨"y", "int", 2, 6⟩, ⟨"x", "int", 1, 5⟩] 2).count :=
  ⟨(updateSymbolValue_frame (some ⟨[⟨"y", "int", 2, 6⟩, ⟨"x", "int", 1, 5⟩], 2⟩) "z" 99).1
      (Or.inr ⟨_, rfl, by decide⟩),
   (updateSymbolValue_frame (some ⟨[⟨"y", "int", 2, 6⟩, ⟨"x", "int", 1, 5⟩], 2⟩) "x" 99).2
      _ rfl ⟨⟨"x", "int", 1, 5⟩, by simp, rfl⟩⟩

/-! ## Syntax tree: checks of the builders on small inputs -/

theorem addChild_first_child_check : addChild (createNode .NODE_PROGRAM none) (createIntNode 3)
    = .node .NODE_PROGRAM none 0 (.node .NODE_INTEGER none 3 .null .null .null .null 0)
        .null .null .null 1 := by decide

theorem createBinaryOpNode_children_check :
    (createBinaryOpNode (some "+") (createIntNode 2) (createIntNode 3)).children
    = [createIntNode 2, createIntNode 3] := by decide

theorem createIfNode_slot_check :
    ((createIfNode (createIntNode 2) .null).slot 0).count = 4 := by decide

/-! ## Syntax tree: the child-count invariant is kept by every call -/

/-- The invariant of a record, slot by slot: slot `i` is occupied exactly
when `i < childCount`. -/
theorem childCountInvariant_of_slots (type : NodeType) (value : Option String)
    (intValue : Int) (c0 c1 c2 c3 : TreeNode) (k : Int)
    (h0 : 0 ≤ k) (h4 : k ≤ 4)
    (s0 : 0 < k ↔ c0 ≠ .null) (s1 : 1 < k ↔ c1 ≠ .null)
    (s2 : 2 < k ↔ c2 ≠ .null) (s3 : 3 < k ↔ c3 ≠ .null) :
    ChildCountInvariant (.node type value intValue c0 c1 c2 c3 k) := by
  refine ⟨h0, h4, ?_, ?_, ?_⟩
  · intro i hi hik
    simp only [TreeNode.count] at hik
    interval_cases i
    · exact s0.mp (by simpa using hik)
    · exact s1.mp (by simpa using hik)
    · exact s2.mp (by simpa using hik)
    · exact s3.mp (by simpa using hik)
  · intro i hi hik
    simp only [TreeNode.count] at hik
    interval_cases i
    · exact not_not.mp (fun h => absurd (s0.mpr h) (by simpa using hik))
    · exact not_not.mp (fun h => absurd (s1.mpr h) (by simpa using hik))
    · exact not_not.mp (fun h => absurd (s2.mpr h) (by simpa using hik))
    · exact not_not.mp (fun h => absurd (s3.mpr h) (by simpa using hik))
  · simp only [TreeNode.count, TreeNode.nonNullSlots]
    by_cases e0 : c0 = .null <;> by_cases e1 : c1 = .null <;>
      by_cases e2 : c2 = .null <;> by_cases e3 : c3 = .null <;>
      simp only [e0, e1, e2, e3, ne_eq, not_true_eq_false, not_false_eq_true,
        iff_false, iff_true, if_true, if_false] at s0 s1 s2 s3 ⊢ <;>
      push_cast <;> omega

theorem slot_occupied_iff (n : TreeNode) (h : ChildCountInvariant n) (i : Nat)
    (hi : i < 4) : (i : Int) < n.count ↔ n.slot i ≠ .null := by
  obtain ⟨-, -, hlt, hge, -⟩ := h
  constructor
  · exact hlt i hi
  · intro hs
    by_contra hk
    exact hs (hge i hi (by omega))

theorem slots_of_childCountInvariant (type : NodeType) (value : Option String)
    (intValue : Int) (c0 c1 c2 c3 : TreeNode) (k : Int)
    (h : ChildCountInvariant (.node type value intValue c0 c1 c2 c3 k)) :
    0 ≤ k ∧ k ≤ 4 ∧ (0 < k ↔ c0 ≠ .null) ∧ (1 < k ↔ c1 ≠ .null) ∧
      (2 < k ↔ c2 ≠ .null) ∧ (3 < k ↔ c3 ≠ .null) := by
  have s0 := slot_occupied_iff _ h 0 (by omega)
  have s1 := slot_occupied_iff _ h 1 (by omega)
  have s2 := slot_occupied_iff _ h 2 (by omega)
  have s3 := slot_occupied_iff _ h 3 (by omega)
  simp only [TreeNode.count, TreeNode.slot] at s0 s1 s2 s3
  exact ⟨h.1, h.2.1, by simpa using s0, by simpa using s1, by simpa using s2,
    by simpa using s3⟩

theorem createNode_invariant (type : NodeType) (value : Option String) :
    ∀ m ∈ (createNode type value).subtree, ChildCountInvariant m := by
  intro m hm
  simp only [createNode, TreeNode.subtree, List.append_nil, List.mem_singleton] at hm
  subst hm
  exact childCountInvariant_of_slots _ _ _ _ _ _ _ _ (by omega) (by omega)
    (by simp) (by simp) (by simp) (by simp)

theorem createIntNode_invariant (value : Int) :
    ∀ m ∈ (createIntNode value).subtree, ChildCountInvariant m := by
  intro m hm
  simp only [createIntNode, createNode, TreeNode.storeIntValue, TreeNode.subtree,
    List.append_nil, List.mem_singleton] at hm
  subst hm
  exact childCountInvariant_of_slots _ _ _ _ _ _ _ _ (by omega) (by omega)
    (by simp) (by simp) (by simp) (by simp)

theorem addChild_invariant (parent child : TreeNode)
    (hp : ∀ m ∈ parent.subtree, ChildCountInvariant m)
    (hc : ∀ m ∈ child.subtree, ChildCountInvariant m) :
    ∀ m ∈ (addChild parent child).subtree, ChildCountInvariant m := by
  cases parent with
  | null => simpa [addChild] using hp
  | node type value intValue c0 c1 c2 c3 k =>
    by_cases hcond : child ≠ .null ∧ k < 4
    · obtain ⟨hchild, hk4⟩ := hcond
      obtain ⟨h0, -, s0, s1, s2, s3⟩ :=
        slots_of_childCountInvariant type value intValue c0 c1 c2 c3 k
          (hp _ (by simp [TreeNode.subtree]))
      have hsub : ∀ m, m ∈ c0.subtree ∨ m ∈ c1.subtree ∨ m ∈ c2.subtree ∨ m ∈ c3.subtree →
          ChildCountInvariant m := by
        intro m hm
        apply hp
        simp only [TreeNode.subtree, List.mem_cons, List.mem_append]
        tauto
      obtain rfl | rfl | rfl | rfl : k = 0 ∨ k = 1 ∨ k = 2 ∨ k = 3 := by omega
      all_goals
        intro m hm
        simp only [addChild, TreeNode.count, TreeNode.storeChild, TreeNode.storeCount,
          TreeNode.subtree, List.mem_cons, List.mem_append, hchild, ne_eq,
          not_false_eq_true, reduceCtorEq, true_and] at hm
        norm_num at hm
        norm_num at s0 s1 s2 s3
        rcases hm with rfl | ((hm | hm) | hm) | hm
        · exact childCountInvariant_of_slots _ _ _ _ _ _ _ _ (by omega) (by omega)
            (by simp [*]) (by simp [*]) (by simp [*]) (by simp [*])
        all_goals first
          | exact hc m hm
          | exact hsub m (by tauto)
    · have : addChild (.node type value intValue c0 c1 c2 c3 k) child =
          .node type value intValue c0 c1 c2 c3 k := by
        simp only [addChild, TreeNode.count]
        rw [if_neg]
        tauto
      rw [this]
      exact hp

theorem null_invariant : ∀ m ∈ TreeNode.null.subtree, ChildCountInvariant m := by
  intro m hm
  simp [TreeNode.subtree] at hm

theorem createBinaryOpNode_invariant (op : Option String) (left right : TreeNode)
    (hl : ∀ m ∈ left.subtree, ChildCountInvariant m)
    (hr : ∀ m ∈ right.subtree, ChildCountInvariant m) :
    ∀ m ∈ (createBinaryOpNode op left right).subtree, ChildCountInvariant m :=
  addChild_invariant _ _
    (addChild_invariant _ _ (createNode_invariant .NODE_BINARY_OP op) hl) hr

theorem createDeclarationNode_invariant (typeNode varNode exprNode : TreeNode)
    (ht : ∀ m ∈ typeNode.subtree, ChildCountInvariant m)
    (hv : ∀ m ∈ varNode.subtree, ChildCountInvariant m)
    (he : ∀ m ∈ exprNode.subtree, ChildCountInvariant m) :
    ∀ m ∈ (createDeclarationNode typeNode varNode exprNode).subtree,
      ChildCountInvariant m :=
  addChild_invariant _ _
    (addChild_invariant _ _ (createNode_invariant _ _)
      (addChild_invariant _ _
        (addChild_invariant _ _
          (addChild_invariant _ _ (createNode_invariant _ _)
            (addChild_invariant _ _
              (addChild_invariant _ _ (createNode_invariant _ _) ht) hv))
          (createNode_invariant _ _))
        he))
    (createNode_invariant _ _)

theorem createIfNode_invariant (condition body : TreeNode)
    (hcond : ∀ m ∈ condition.subtree, ChildCountInvariant m) :
    ∀ m ∈ (createIfNode condition body).subtree, ChildCountInvariant m :=
  addChild_invariant _ _
    (addChild_invariant _ _ (createNode_invariant _ _)
      (addChild_invariant _ _
        (addChild_invariant _ _
          (addChild_invariant _ _
            (addChild_invariant _ _ (createNode_invariant _ _) (createNode_invariant _ _))
            (createNode_invariant _ _))
          hcond)
        (createNode_invariant _ _)))
    (createNode_invariant _ _)

/-! ## Syntax tree: the specification's statements -/

/-- C7: when parent and child are present and the parent holds `k < 4`
children, `addChild` makes the child sequence the old sequence followed by
the child and the count `k + 1`, keeping the parent's kind, text, integer
payload and every other slot; when the parent is absent, the child is absent,
or the parent already holds 4 children, `addChild` changes nothing (so a
5th child leaves the count at 4 and the four children as they were). -/
theorem addChild_append_or_noop (parent child : TreeNode) :
    (∀ type value intValue c0 c1 c2 c3 k,
      parent = .node type value intValue c0 c1 c2 c3 k → child ≠ .null → 0 ≤ k → k < 4 →
      ∃ c0' c1' c2' c3',
        addChild parent child = .node type value intValue c0' c1' c2' c3' (k + 1) ∧
        (addChild parent child).children = parent.children ++ [child] ∧
        ∀ i : Nat, (i : Int) ≠ k → (addChild parent child).slot i = parent.slot i) ∧
    ((parent = .null ∨ child = .null ∨ 4 ≤ parent.count) →
      addChild parent child = parent) := by
  constructor
  · rintro type value intValue c0 c1 c2 c3 k rfl hc hk0 hk4
    obtain rfl | rfl | rfl | rfl : k = 0 ∨ k = 1 ∨ k = 2 ∨ k = 3 := by omega
    · refine ⟨child, c1, c2, c3, by simp [addChild, TreeNode.count, TreeNode.storeChild,
        TreeNode.storeCount, hc], by simp [addChild, TreeNode.count, TreeNode.storeChild,
        TreeNode.storeCount, TreeNode.children, hc], ?_⟩
      intro i hi
      match i, hi with
      | 0, hi => exact absurd rfl hi
      | 1, _ | 2, _ | 3, _ | (n + 4), _ =>
        simp [addChild, TreeNode.count, TreeNode.storeChild, TreeNode.storeCount,
          TreeNode.slot, hc]
    · refine ⟨c0, child, c2, c3, by simp [addChild, TreeNode.count, TreeNode.storeChild,
        TreeNode.storeCount, hc], by simp [addChild, TreeNode.count, TreeNode.storeChild,
        TreeNode.storeCount, TreeNode.children, hc], ?_⟩
      intro i hi
      match i, hi with
      | 1, hi => exact absurd rfl hi
      | 0, _ | 2, _ | 3, _ | (n + 4), _ =>
        simp [addChild, TreeNode.count, TreeNode.storeChild, TreeNode.storeCount,
          TreeNode.slot, hc]
    · refine ⟨c0, c1, child, c3, by simp [addChild, TreeNode.count, TreeNode.storeChild,
        TreeNode.storeCount, hc], by simp [addChild, TreeNode.count, TreeNode.storeChild,
        TreeNode.storeCount, TreeNode.children, hc], ?_⟩
      intro i hi
      match i, hi with
      | 2, hi => exact absurd rfl hi
      | 0, _ | 1, _ | 3, _ | (n + 4), _ =>
        simp [addChild, TreeNode.count, TreeNode.storeChild, TreeNode.storeCount,
          TreeNode.slot, hc]
    · refine ⟨c0, c1, c2, child, by simp [addChild, TreeNode.count, TreeNode.storeChild,
        TreeNode.storeCount, hc], by simp [addChild, TreeNode.count, TreeNode.storeChild,
        TreeNode.storeCount, TreeNode.children, hc], ?_⟩
      intro i hi
      match i, hi with
      | 3, hi => exact absurd rfl hi
      | 0, _ | 1, _ | 2, _ | (n + 4), _ =>
        simp [addChild, TreeNode.count, TreeNode.storeChild, TreeNode.storeCount,
          TreeNode.slot, hc]
  · rintro (h | h | h)
    · simp [addChild, h]
    · simp [addChild, h]
    · have : ¬ parent.count < 4 := by omega
      simp [addChild, this]

theorem addChild_append_or_noop_witness :
    (∃ c0' c1' c2' c3',
      addChild (.node .NODE_EXPRESSION (some "expr") 0 (createIntNode 1) .null .null .null 1)
          (createIntNode 2) =
        .node .NODE_EXPRESSION (some "expr") 0 c0' c1' c2' c3' (1 + 1) ∧
      (addChild (.node .NODE_EXPRESSION (some "expr") 0 (createIntNode 1) .null .null .null 1)
          (createIntNode 2)).children =
        (TreeNode.node .NODE_EXPRESSION (some "expr") 0 (createIntNode 1) .null .null .null
          1).children ++ [createIntNode 2] ∧
      ∀ i : Nat, (i : Int) ≠ 1 →
        (addChild (.node .NODE_EXPRESSION (some "expr") 0 (createIntNode 1) .null .null .null 1)
          (createIntNode 2)).slot i =
        (TreeNode.node .NODE_EXPRESSION (some "expr") 0 (createIntNode 1) .null .null .null
          1).slot i) ∧
    addChild
        (.node .NODE_IF_STATEMENT none 0 (createIntNode 1) (createIntNode 2) (createIntNode 3)
          (createIntNode 4) 4)
        (createIntNode 5) =
      .node .NODE_IF_STATEMENT none 0 (createIntNode 1) (createIntNode 2) (createIntNode 3)
        (createIntNode 4) 4 :=
  ⟨(addChild_append_or_noop
      (.node .NODE_EXPRESSION (some "expr") 0 (createIntNode 1) .null .null .null 1)
      (createIntNode 2)).1 _ _ _ _ _ _ _ _ rfl (by decide) (by decide) (by decide),
   (addChild_append_or_noop
      (.node .NODE_IF_STATEMENT none 0 (createIntNode 1) (createIntNode 2) (createIntNode 3)
        (createIntNode 4) 4)
      (createIntNode 5)).2 (Or.inr (Or.inr (by decide)))⟩

/-- C9: for an operator text `op` and present nodes `A` and `B`,
`createBinaryOpNode(op, A, B)` is a `NODE_BINARY_OP` record with text `op`,
integer payload 0 and exactly the two children `A`, `B`, in that order and as
they were. -/
theorem createBinaryOpNode_two_children (op : String) (A B : TreeNode)
    (hA : A ≠ .null) (hB : B ≠ .null) :
    createBinaryOpNode (some op) A B =
        .node .NODE_BINARY_OP (some op) 0 A B .null .null 2 ∧
      (createBinaryOpNode (some op) A B).count = 2 ∧
      (createBinaryOpNode (some op) A B).children = [A, B] := by
  have h : createBinaryOpNode (some op) A B =
      .node .NODE_BINARY_OP (some op) 0 A B .null .null 2 := by
    simp [createBinaryOpNode, createNode, addChild, TreeNode.count, TreeNode.storeChild,
      TreeNode.storeCount, hA, hB]
  rw [h]
  simp [TreeNode.count, TreeNode.children]

theorem createBinaryOpNode_two_children_witness :
    createBinaryOpNode (some "+") (createIntNode 2) (createIntNode 3) =
        .node .NODE_BINARY_OP (some "+") 0 (createIntNode 2) (createIntNode 3) .null .null 2 ∧
      (createBinaryOpNode (some "+") (createIntNode 2) (createIntNode 3)).count = 2 ∧
      (createBinaryOpNode (some "+") (createIntNode 2) (createIntNode 3)).children =
        [createIntNode 2, createIntNode 3] :=
  createBinaryOpNode_two_children "+" (createIntNode 2) (createIntNode 3)
    (by decide) (by decide)

/-- C10: for present nodes `T`, `V` and `E`, `createDeclarationNode(T, V, E)`
is a `NODE_DECLARATION` root with exactly two children: an expression node
with exactly three children (an inner expression node with children `T`, `V`;
a `NODE_BINARY_OP` node with text "=" and no children; `E`), and a semicolon
node with no children.  Its pre-order is the root, the expression node, the
inner expression node, the pre-order of `T`, that of `V`, the "=" node, the
pre-order of `E`, the semicolon node. -/
theorem createDeclarationNode_shape (T V E : TreeNode)
    (hT : T ≠ .null) (hV : V ≠ .null) (hE : E ≠ .null) :
    ∃ exprParent innerExpr assign semicolon : TreeNode,
      createDeclarationNode T V E =
          .node .NODE_DECLARATION (some "dec") 0 exprParent semicolon .null .null 2 ∧
        (createDeclarationNode T V E).children = [exprParent, semicolon] ∧
        exprParent = .node .NODE_EXPRESSION (some "expr") 0 innerExpr assign E .null 3 ∧
        exprParent.children = [innerExpr, assign, E] ∧
        innerExpr = .node .NODE_EXPRESSION (some "expr") 0 T V .null .null 2 ∧
        innerExpr.children = [T, V] ∧
        assign = .node .NODE_BINARY_OP (some "=") 0 .null .null .null .null 0 ∧
        assign.children = [] ∧
        semicolon = .node .NODE_SEMICOLON (some ";") 0 .null .null .null .null 0 ∧
        semicolon.children = [] ∧
        (createDeclarationNode T V E).preorder =
          [createDeclarationNode T V E, exprParent, innerExpr] ++ T.preorder ++ V.preorder ++
            [assign] ++ E.preorder ++ [semicolon] := by
  have h : createDeclarationNode T V E =
      .node .NODE_DECLARATION (some "dec") 0
        (.node .NODE_EXPRESSION (some "expr") 0
          (.node .NODE_EXPRESSION (some "expr") 0 T V .null .null 2)
          (.node .NODE_BINARY_OP (some "=") 0 .null .null .null .null 0) E .null 3)
        (.node .NODE_SEMICOLON (some ";") 0 .null .null .null .null 0) .null .null 2 := by
    simp [createDeclarationNode, createNode, addChild, TreeNode.count, TreeNode.storeChild,
      TreeNode.storeCount, hT, hV, hE]
  rw [h]
  refine ⟨_, _, _, _, rfl, ?_, rfl, ?_, rfl, ?_, rfl, ?_, rfl, ?_, ?_⟩ <;>
    simp [TreeNode.children, TreeNode.preorder]

theorem createDeclarationNode_shape_witness :
    ∃ exprParent innerExpr assign semicolon : TreeNode,
      createDeclarationNode (createNode .NODE_TYPE (some "int"))
          (createNode .NODE_IDENTIFIER (some "x")) (createIntNode 5) =
          .node .NODE_DECLARATION (some "dec") 0 exprParent semicolon .null .null 2 ∧
        (createDeclarationNode (createNode .NODE_TYPE (some "int"))
          (createNode .NODE_IDENTIFIER (some "x")) (createIntNode 5)).children =
          [exprParent, semicolon] ∧
        exprParent =
          .node .NODE_EXPRESSION (some "expr") 0 innerExpr assign (createIntNode 5) .null 3 ∧
        exprParent.children = [innerExpr, assign, createIntNode 5] ∧
        innerExpr = .node .NODE_EXPRESSION (some "expr") 0 (createNode .NODE_TYPE (some "int"))
          (createNode .NODE_IDENTIFIER (some "x")) .null .null 2 ∧
        innerExpr.children =
          [createNode .NODE_TYPE (some "int"), createNode .NODE_IDENTIFIER (some "x")] ∧
        assign = .node .NODE_BINARY_OP (some "=") 0 .null .null .null .null 0 ∧
        assign.children = [] ∧
        semicolon = .node .NODE_SEMICOLON (some ";") 0 .null .null .null .null 0 ∧
        semicolon.children = [] ∧
        (createDeclarationNode (createNode .NODE_TYPE (some "int"))
          (createNode .NODE_IDENTIFIER (some "x")) (createIntNode 5)).preorder =
          [createDeclarationNode (createNode .NODE_TYPE (some "int"))
            (createNode .NODE_IDENTIFIER (some "x")) (createIntNode 5), exprParent, innerExpr] ++
            (createNode .NODE_TYPE (some "int")).preorder ++
            (createNode .NODE_IDENTIFIER (some "x")).preorder ++
            [assign] ++ (createIntNode 5).preorder ++ [semicolon] :=
  createDeclarationNode_shape (createNode .NODE_TYPE (some "int"))
    (createNode .NODE_IDENTIFIER (some "x")) (createIntNode 5)
    (by decide) (by decide) (by decide)

/-- C8: for every node produced by a finite sequence of `createNode`,
`createIntNode`, `createBinaryOpNode`, `createDeclarationNode`,
`createIfNode` and `addChild` calls with present or absent arguments, every
node of its subtree has `childCount` between 0 and 4, its slots below
`childCount` present, its slots from `childCount` to 3 absent, and
`childCount` equal to the number of its non-null slots. -/
theorem build_childCount_invariant (b : Build) :
    ∀ m ∈ b.eval.subtree,
      0 ≤ m.count ∧ m.count ≤ 4 ∧
      (∀ i : Nat, i < 4 → (i : Int) < m.count → m.slot i ≠ .null) ∧
      (∀ i : Nat, i < 4 → m.count ≤ (i : Int) → m.slot i = .null) ∧
      m.count = (m.nonNullSlots : Int) := by
  induction b with
  | null => exact null_invariant
  | createNode type value => exact createNode_invariant type value
  | createIntNode value => exact createIntNode_invariant value
  | createBinaryOpNode op left right ihl ihr =>
    exact createBinaryOpNode_invariant op _ _ ihl ihr
  | createDeclarationNode typeNode varNode exprNode iht ihv ihe =>
    exact createDeclarationNode_invariant _ _ _ iht ihv ihe
  | createIfNode condition body ihc _ => exact createIfNode_invariant _ _ ihc
  | addChild parent child ihp ihc => exact addChild_invariant _ _ ihp ihc

theorem build_childCount_invariant_witness :
    (Build.addChild (.createBinaryOpNode (some "+") (.createIntNode 2) .null)
        (.createNode .NODE_TYPE none)).eval ∈
      (Build.addChild (.createBinaryOpNode (some "+") (.createIntNode 2) .null)
        (.createNode .NODE_TYPE none)).eval.subtree ∧
    (Build.addChild (.createBinaryOpNode (some "+") (.createIntNode 2) .null)
        (.createNode .NODE_TYPE none)).eval.count = 2 ∧
    0 ≤ (Build.addChild (.createBinaryOpNode (some "+") (.createIntNode 2) .null)
        (.createNode .NODE_TYPE none)).eval.count ∧
    (Build.addChild (.createBinaryOpNode (some "+") (.createIntNode 2) .null)
        (.createNode .NODE_TYPE none)).eval.count ≤ 4 ∧
    (∀ i : Nat, i < 4 →
      (i : Int) < (Build.addChild (.createBinaryOpNode (some "+") (.createIntNode 2) .null)
        (.createNode .NODE_TYPE none)).eval.count →
      (Build.addChild (.createBinaryOpNode (some "+") (.createIntNode 2) .null)
        (.createNode .NODE_TYPE none)).eval.slot i ≠ .null) ∧
    (∀ i : Nat, i < 4 →
      (Build.addChild (.createBinaryOpNode (some "+") (.createIntNode 2) .null)
        (.createNode .NODE_TYPE none)).eval.count ≤ (i : Int) →
      (Build.addChild (.createBinaryOpNode (some "+") (.createIntNode 2) .null)
        (.createNode .NODE_TYPE none)).eval.slot i = .null) ∧
    (Build.addChild (.createBinaryOpNode (some "+") (.createIntNode 2) .null)
        (.createNode .NODE_TYPE none)).eval.count =
      ((Build.addChild (.createBinaryOpNode (some "+") (.createIntNode 2) .null)
        (.createNode .NODE_TYPE none)).eval.nonNullSlots : Int) :=
  ⟨by decide, by decide,
   build_childCount_invariant
     (.addChild (.createBinaryOpNode (some "+") (.createIntNode 2) .null)
       (.createNode .NODE_TYPE none))
     _ (by decide)⟩

/-! ## Printers: checks on small inputs -/

theorem printTree_binary_check :
    printTree (createBinaryOpNode (some "+") (createIntNode 2) (createIntNode (-3))) 1 =
      "     +\n     /   \\\n     2\n     -3\n" := by decide

theorem printTreeFormatted_binary_check :
    printTreeFormatted (createBinaryOpNode (some "+") (createIntNode 2) (createIntNode 3)) 0 6 =
      "      +\n      /   \\\n      2\n          3\n" := by decide

set_option maxRecDepth 20000 in
theorem printSymbolTable_one_entry_check :
    printSymbolTable (runCalls [.insert "x" "int" 1 5]) =
      "\n========== SYMBOL TABLE ==========\n" ++
      "| Name       | Type   | Value    | Line |\n" ++
      "|------------|--------|----------|------|\n" ++
      "| x          | int    | 1        | 5    |\n" ++
      "==================================\n\n" := by decide

/-! ## Printers: lemmas on the text operations -/

theorem emitAll_append (xs ys : List String) :
    emitAll (xs ++ ys) = emitAll xs ++ emitAll ys := by
  induction xs with
  | nil => simp [emitAll]
  | cons x rest ih => simp [emitAll, ih, String.append_assoc]

theorem emitAll_singleton (s : String) : emitAll [s] = s := by
  simp [emitAll]

theorem emitAll_replicate_char (n : Nat) (c : Char) :
    emitAll (List.replicate n (String.mk [c])) = String.mk (List.replicate n c) := by
  induction n with
  | zero => rfl
  | succ n ih =>
    simp only [List.replicate_succ, emitAll, ih]
    rfl

theorem printSpaces_eq (position : Int) :
    printSpaces position = String.mk (List.replicate position.toNat ' ') :=
  emitAll_replicate_char position.toNat ' '

/-- What `printTree` writes for a node with `childCount > 0`: its line, its
branch line, then what it writes for the children in order. -/
theorem printTree_with_children (type : NodeType) (value : Option String)
    (intValue : Int) (c0 c1 c2 c3 : TreeNode) (k level : Int) (hk : 0 < k) :
    printTree (.node type value intValue c0 c1 c2 c3 k) level =
      printTreeIndent level ++
        (displayText (.node type value intValue c0 c1 c2 c3 k) ++ "\n") ++
        (printTreeIndent level ++ branchLine k ++ "\n") ++
        emitAll ((TreeNode.node type value intValue c0 c1 c2 c3 k).children.map
          (fun c => printTree c level)) := by
  have hk' : k > 0 := hk
  simp only [printTree, TreeNode.children, hk, hk', if_true, List.map_append, emitAll_append]
  by_cases h1 : 1 < k <;> by_cases h2 : 2 < k <;> by_cases h3 : 3 < k <;>
    first
    | (exfalso; omega)
    | simp [h1, h2, h3, emitAll, String.append_assoc]

/-- What `printTreeFormatted` writes for a node with `childCount > 0`: its
line, the branch symbols, then what it writes for child `i` at `level + 1`
and `position + 4 * i`, in order. -/
theorem printTreeFormatted_with_children (type : NodeType) (value : Option String)
    (intValue : Int) (c0 c1 c2 c3 : TreeNode) (k level position : Int) (hk : 0 < k) :
    printTreeFormatted (.node type value intValue c0 c1 c2 c3 k) level position =
      printSpaces position ++ displayText (.node type value intValue c0 c1 c2 c3 k) ++ "\n" ++
        (printSpaces position ++ branchSymbols k) ++
        emitAll ((TreeNode.node type value intValue c0 c1 c2 c3 k).children.enum.map
          (fun ic => printTreeFormatted ic.2 (level + 1) (position + 4 * (ic.1 : Int)))) := by
  have hk' : k > 0 := hk
  have h0 : (0 : Int) * 4 = 4 * ((0 : Nat) : Int) := by norm_num
  have e1 : (1 : Int) * 4 = 4 * ((1 : Nat) : Int) := by norm_num
  have e2 : (2 : Int) * 4 = 4 * ((2 : Nat) : Int) := by norm_num
  have e3 : (3 : Int) * 4 = 4 * ((3 : Nat) : Int) := by norm_num
  simp only [printTreeFormatted, TreeNode.children, hk, hk', if_true, h0, e1, e2, e3]
  by_cases h1 : 1 < k <;> by_cases h2 : 2 < k <;> by_cases h3 : 3 < k <;>
    first
    | (exfalso; omega)
    | simp [h1, h2, h3, emitAll, List.enum, List.enumFrom, String.append_assoc]

theorem printTreeFormatted_present (type : NodeType) (value : Option String)
    (intValue : Int) (c0 c1 c2 c3 : TreeNode) (k level position : Int) :
    ∃ rest, printTreeFormatted (.node type value intValue c0 c1 c2 c3 k) level position =
      printSpaces position ++ displayText (.node type value intValue c0 c1 c2 c3 k) ++ "\n" ++
        rest :=
  ⟨_, by rw [printTreeFormatted]⟩

/-- The texts written for an indexed list split at a position: the texts for
the elements before it, the text for the element at it, the texts for the
elements after it. -/
theorem emitAll_enumFrom_split (f : Nat × TreeNode → String) (l : List TreeNode)
    (n i : Nat) (c : TreeNode) (h : l[i]? = some c) :
    emitAll ((l.enumFrom n).map f) =
      emitAll (((l.take i).enumFrom n).map f) ++ f (n + i, c) ++
        emitAll (((l.drop (i + 1)).enumFrom (n + i + 1)).map f) := by
  induction l generalizing n i with
  | nil => simp at h
  | cons x rest ih =>
    cases i with
    | zero =>
      simp only [List.getElem?_cons_zero, Option.some.injEq] at h
      subst h
      simp [List.enumFrom, emitAll]
    | succ j =>
      simp only [List.getElem?_cons_succ] at h
      have hstep := ih (n + 1) j h
      have e1 : n + 1 + j = n + (j + 1) := by omega
      rw [e1] at hstep
      simp only [List.enumFrom, List.map_cons, emitAll, List.take_succ_cons,
        List.drop_succ_cons, hstep, String.append_assoc]

theorem emitAll_enum_split (f : Nat × TreeNode → String) (l : List TreeNode)
    (i : Nat) (c : TreeNode) (h : l[i]? = some c) :
    ∃ rest, emitAll (l.enum.map f) =
      emitAll ((l.take i).enum.map f) ++ f (i, c) ++ rest := by
  have hsplit := emitAll_enumFrom_split f l 0 i c h
  simp only [Nat.zero_add] at hsplit
  exact ⟨_, hsplit⟩

/-! ## Symbol table: lemmas on sequences of calls and on the report -/

theorem insertSymbol_prepend (t : SymbolTable) (name type : String) (value lineNumber : Int)
    (h : ∀ e ∈ t.head, e.name ≠ name) :
    insertSymbol (some t) name type value lineNumber =
      some { head := { name := name, type := type, value := value,
                       lineNumber := lineNumber } :: t.head,
             count := t.count + 1 } := by
  have hl : lookupSymbol (some t) name = none := (lookupLoop_none_iff name t.head 0).mpr h
  simp [insertSymbol, hl]

theorem foldl_insertCall (es : List SymbolEntry) (t : SymbolTable)
    (hfresh : ∀ e ∈ es, ∀ e' ∈ t.head, e'.name ≠ e.name)
    (hnodup : (es.map SymbolEntry.name).Nodup) :
    (es.map insertCall).foldl SymbolCall.run (some t) =
      some { head := es.reverse ++ t.head, count := t.count + es.length } := by
  induction es generalizing t with
  | nil => simp
  | cons e rest ih =>
    have hstep : SymbolCall.run (some t) (insertCall e) =
        some { head := e :: t.head, count := t.count + 1 } := by
      simp only [insertCall, SymbolCall.run]
      exact insertSymbol_prepend t e.name e.type e.value e.lineNumber
        (hfresh e (List.mem_cons_self e rest))
    rw [List.map_cons, List.foldl_cons, hstep, ih]
    · simp only [List.reverse_cons, List.append_assoc, List.singleton_append, List.length_cons,
        Nat.cast_add, Nat.cast_one]
      congr 2
      omega
    · intro x hx e' he'
      rcases List.mem_cons.mp he' with rfl | he'
      · rw [List.map_cons, List.nodup_cons] at hnodup
        intro hEq
        exact hnodup.1 (List.mem_map.mpr ⟨x, hx, hEq.symm⟩)
      · exact hfresh x (List.mem_cons_of_mem e hx) e' he'
    · rw [List.map_cons, List.nodup_cons] at hnodup
      exact hnodup.2

theorem runCalls_insertCall (es : List SymbolEntry)
    (hnodup : (es.map SymbolEntry.name).Nodup) :
    runCalls (es.map insertCall) = some { head := es.reverse, count := es.length } := by
  have h := foldl_insertCall es { head := [], count := 0 } (by simp) hnodup
  simpa [runCalls, createSymbolTable] using h

theorem printEntries_eq (chain : List SymbolEntry) :
    printEntries chain = emitAll (chain.map entryRow) := by
  induction chain with
  | nil => rfl
  | cons e rest ih => simp [printEntries, emitAll, ih]

theorem printSymbolTable_of_entries (t : SymbolTable) (h : t.head ≠ []) :
    printSymbolTable (some t) =
      "\n========== SYMBOL TABLE ==========\n" ++ headerRow ++ separatorRow ++
        emitAll (t.head.map entryRow) ++ "==================================\n\n" := by
  cases hh : t.head with
  | nil => exact absurd hh h
  | cons e rest => simp only [printSymbolTable, hh, printEntries_eq]

theorem insertedNames_append (xs ys : List SymbolCall) :
    insertedNames (xs ++ ys) = insertedNames xs ++ insertedNames ys := by
  induction xs with
  | nil => rfl
  | cons c rest ih => cases c <;> simp [insertedNames, ih]

theorem runCalls_snoc (calls : List SymbolCall) (c : SymbolCall) :
    runCalls (calls ++ [c]) = SymbolCall.run (runCalls calls) c := by
  simp [runCalls, List.foldl_append]

/-- One call on a present table: the table stays present, the counter and
the chain grow together, the counter does not decrease, and the names of the
chain are the old ones and the name inserted, if any. -/
theorem run_step (t : SymbolTable) (c : SymbolCall) :
    ∃ t', SymbolCall.run (some t) c = some t' ∧
      t'.count - t'.head.length = t.count - t.head.length ∧
      t.count ≤ t'.count ∧
      ∀ n, n ∈ entryNames (some t') ↔ n ∈ entryNames (some t) ∨ n ∈ insertedNames [c] := by
  cases c with
  | insert name type value lineNumber =>
    cases hl : lookupLoop name t.head 0 with
    | some i =>
      obtain ⟨k, e, -, hk, hn, -⟩ := (lookupLoop_some_iff name t.head 0 i).mp hl
      have hmem : name ∈ t.head.map SymbolEntry.name :=
        List.mem_map.mpr ⟨e, List.getElem?_mem hk, hn⟩
      refine ⟨{ t with head := storeValue t.head i value },
        by simp [SymbolCall.run, insertSymbol, lookupSymbol, hl],
        by simp [storeValue_length], le_refl _, ?_⟩
      intro n
      simp only [entryNames, storeValue_names, insertedNames, List.mem_singleton]
      constructor
      · exact Or.inl
      · rintro (h | rfl)
        · exact h
        · exact hmem
    | none =>
      refine ⟨{ head := { name := name, type := type, value := value,
                          lineNumber := lineNumber } :: t.head, count := t.count + 1 },
        by simp [SymbolCall.run, insertSymbol, lookupSymbol, hl], ?_, by simp, ?_⟩
      · simp only [List.length_cons, Nat.cast_add, Nat.cast_one]
        omega
      · intro n
        simp only [entryNames, List.map_cons, List.mem_cons, insertedNames,
          List.mem_singleton, List.not_mem_nil, or_false]
        tauto
  | update name value =>
    cases hl : lookupLoop name t.head 0 with
    | some i =>
      refine ⟨{ t with head := storeValue t.head i value },
        by simp [SymbolCall.run, updateSymbolValue, lookupSymbol, hl],
        by simp [storeValue_length], le_refl _, ?_⟩
      intro n
      simp [entryNames, storeValue_names, insertedNames]
    | none =>
      exact ⟨t, by simp [SymbolCall.run, updateSymbolValue, lookupSymbol, hl], rfl,
        le_refl _, by simp [insertedNames]⟩

/-- The state after any sequence of calls from `createSymbolTable()`. -/
theorem runCalls_state (calls : List SymbolCall) :
    ∃ t, runCalls calls = some t ∧ t.count = t.head.length ∧
      ∀ n, n ∈ entryNames (some t) ↔ n ∈ insertedNames calls := by
  induction calls using List.reverseRecOn with
  | nil => exact ⟨{ head := [], count := 0 }, rfl, rfl, by simp [entryNames, insertedNames]⟩
  | append_singleton calls c ih =>
    obtain ⟨t, ht, hcount, hnames⟩ := ih
    obtain ⟨t', hrun, hdiff, -, hnames'⟩ := run_step t c
    refine ⟨t', by rw [runCalls_snoc, ht, hrun], by omega, ?_⟩
    intro n
    rw [hnames' n, hnames n, insertedNames_append, List.mem_append]

theorem runCalls_count_mono (calls more : List SymbolCall) :
    ∃ t t', runCalls calls = some t ∧ runCalls (calls ++ more) = some t' ∧
      t.count ≤ t'.count := by
  induction more using List.reverseRecOn with
  | nil =>
    obtain ⟨t, ht, -, -⟩ := runCalls_state calls
    exact ⟨t, t, ht, by simpa using ht, le_refl _⟩
  | append_singleton more c ih =>
    obtain ⟨t, t', ht, ht', hle⟩ := ih
    obtain ⟨t'', hrun, -, hle', -⟩ := run_step t' c
    refine ⟨t, t'', ht, ?_, le_trans hle hle'⟩
    rw [← List.append_assoc, runCalls_snoc, ht', hrun]

theorem leftJustify_length (s : String) (width : Nat) :
    (leftJustify s width).length = max s.length width := by
  have hpad : (String.mk (List.replicate (width - s.length) ' ')).length =
      width - s.length :=
    List.length_replicate _ _
  rw [leftJustify, String.length_append, hpad]
  omega

/-- The rows of the entries are as wide as the header and separator rows when
every field fits its column: with its line break a row has 42 characters. -/
theorem entryRow_length (e : SymbolEntry) (hname : e.name.length ≤ 10)
    (htype : e.type.length ≤ 6) (hvalue : (formatInt e.value).length ≤ 8)
    (hline : (formatInt e.lineNumber).length ≤ 4) :
    (entryRow e).length = 42 := by
  simp only [entryRow, String.length_append, leftJustify_length]
  have h1 : ("| " : String).length = 2 := by decide
  have h2 : (" | " : String).length = 3 := by decide
  have h3 : (" |\n" : String).length = 3 := by decide
  rw [h1, h2, h3]
  omega

/-- A row of an entry has at least 42 characters with its line break, the
fields being padded to their columns and never cut. -/
theorem entryRow_length_ge (e : SymbolEntry) : 42 ≤ (entryRow e).length := by
  simp only [entryRow, String.length_append, leftJustify_length]
  have h1 : ("| " : String).length = 2 := by decide
  have h2 : (" | " : String).length = 3 := by decide
  have h3 : (" |\n" : String).length = 3 := by decide
  rw [h1, h2, h3]
  omega

theorem entryRow_ne_emptyRow (e : SymbolEntry) :
    entryRow e ≠ "| (empty)                              |\n" := by
  intro h
  have hlen := entryRow_length_ge e
  rw [h] at hlen
  have : ("| (empty)                              |\n" : String).length = 41 := by decide
  omega

theorem headerRow_eq : headerRow = "| Name       | Type   | Value    | Line |\n" := by
  decide

/-! ## Builders and printers: the specification's statements, continued -/

/-- C11: for a present condition `C` and any `body`, `createIfNode(C, body)`
is a `NODE_DECLARATION` root with exactly two children, a `NODE_IF_STATEMENT`
node followed by a `NODE_COLON` node; the `NODE_IF_STATEMENT` node has exactly
four children, in order an identifier node with text "if", an identifier node
with text "(", `C`, and an identifier node with text ")".  The body is
attached nowhere: every other body argument gives the same tree. -/
theorem createIfNode_shape (C body : TreeNode) (hC : C ≠ .null) :
    ∃ ifStat colon ifKeyword openParen closeParen : TreeNode,
      createIfNode C body =
          .node .NODE_DECLARATION (some "dec") 0 ifStat colon .null .null 2 ∧
        (createIfNode C body).children = [ifStat, colon] ∧
        ifStat = .node .NODE_IF_STATEMENT (some "if_stat") 0 ifKeyword openParen C
          closeParen 4 ∧
        ifStat.children = [ifKeyword, openParen, C, closeParen] ∧
        ifKeyword = .node .NODE_IDENTIFIER (some "if") 0 .null .null .null .null 0 ∧
        openParen = .node .NODE_IDENTIFIER (some "(") 0 .null .null .null .null 0 ∧
        closeParen = .node .NODE_IDENTIFIER (some ")") 0 .null .null .null .null 0 ∧
        colon = .node .NODE_COLON (some ":") 0 .null .null .null .null 0 ∧
        ∀ body' : TreeNode, createIfNode C body' = createIfNode C body := by
  have h : createIfNode C body =
      .node .NODE_DECLARATION (some "dec") 0
        (.node .NODE_IF_STATEMENT (some "if_stat") 0
          (.node .NODE_IDENTIFIER (some "if") 0 .null .null .null .null 0)
          (.node .NODE_IDENTIFIER (some "(") 0 .null .null .null .null 0) C
          (.node .NODE_IDENTIFIER (some ")") 0 .null .null .null .null 0) 4)
        (.node .NODE_COLON (some ":") 0 .null .null .null .null 0) .null .null 2 := by
    simp [createIfNode, createNode, addChild, TreeNode.count, TreeNode.storeChild,
      TreeNode.storeCount, hC]
  rw [h]
  refine ⟨_, _, _, _, _, rfl, ?_, rfl, ?_, rfl, rfl, rfl, rfl, ?_⟩
  · simp [TreeNode.children]
  · simp [TreeNode.children]
  · intro body'
    rw [← h]
    rfl

theorem createIfNode_shape_witness :
    ∃ ifStat colon ifKeyword openParen closeParen : TreeNode,
      createIfNode (createIntNode 1) (createIntNode 7) =
          .node .NODE_DECLARATION (some "dec") 0 ifStat colon .null .null 2 ∧
        (createIfNode (createIntNode 1) (createIntNode 7)).children = [ifStat, colon] ∧
        ifStat = .node .NODE_IF_STATEMENT (some "if_stat") 0 ifKeyword openParen
          (createIntNode 1) closeParen 4 ∧
        ifStat.children = [ifKeyword, openParen, createIntNode 1, closeParen] ∧
        ifKeyword = .node .NODE_IDENTIFIER (some "if") 0 .null .null .null .null 0 ∧
        openParen = .node .NODE_IDENTIFIER (some "(") 0 .null .null .null .null 0 ∧
        closeParen = .node .NODE_IDENTIFIER (some ")") 0 .null .null .null .null 0 ∧
        colon = .node .NODE_COLON (some ":") 0 .null .null .null .null 0 ∧
        ∀ body' : TreeNode,
          createIfNode (createIntNode 1) body' =
            createIfNode (createIntNode 1) (createIntNode 7) :=
  createIfNode_shape (createIntNode 1) (createIntNode 7) (by decide)

/-- C14, as the code has it: for a node with `n ≥ 1` children and every indent
level, `printTree` writes, directly after the line of the node, one connector
line made of the indentation of that same level, then "/" for the first
child, three spaces and "|" for every middle child, and three spaces and "\"
for the last child when `n ≥ 2` (so "/", "/   \", "/   |   \" and
"/   |   |   \" for 1, 2, 3 and 4 children), then a line break; the output of
the children follows. -/
theorem printTree_connector_line (type : NodeType) (value : Option String)
    (intValue : Int) (c0 c1 c2 c3 : TreeNode) (k level : Int) (hk : 0 < k) :
    printTree (.node type value intValue c0 c1 c2 c3 k) level =
        printTreeIndent level ++
          (displayText (.node type value intValue c0 c1 c2 c3 k) ++ "\n") ++
          (printTreeIndent level ++ branchLine k ++ "\n") ++
          emitAll ((TreeNode.node type value intValue c0 c1 c2 c3 k).children.map
            (fun c => printTree c level)) ∧
      branchLine k = emitAll ((List.range k.toNat).map (branchGlyph k)) ∧
      (∀ i : Nat, branchGlyph k i =
        if i = 0 then "/" else if (i : Int) = k - 1 then "   \\" else "   |") ∧
      (k = 1 → branchLine k = "/") ∧
      (k = 2 → branchLine k = "/   \\") ∧
      (k = 3 → branchLine k = "/   |   \\") ∧
      (k = 4 → branchLine k = "/   |   |   \\") := by
  refine ⟨printTree_with_children type value intValue c0 c1 c2 c3 k level hk, rfl,
    fun i => rfl, ?_, ?_, ?_, ?_⟩ <;>
  · rintro rfl
    decide

theorem printTree_connector_line_witness :
    printTree (.node .NODE_BINARY_OP (some "+") 0 (createIntNode 2) (createIntNode 3)
        .null .null 2) 1 =
        printTreeIndent 1 ++
          (displayText (.node .NODE_BINARY_OP (some "+") 0 (createIntNode 2) (createIntNode 3)
            .null .null 2) ++ "\n") ++
          (printTreeIndent 1 ++ branchLine 2 ++ "\n") ++
          emitAll ((TreeNode.node .NODE_BINARY_OP (some "+") 0 (createIntNode 2)
            (createIntNode 3) .null .null 2).children.map (fun c => printTree c 1)) ∧
      branchLine 2 = "/   \\" :=
  ⟨(printTree_connector_line .NODE_BINARY_OP (some "+") 0 (createIntNode 2) (createIntNode 3)
      .null .null 2 1 (by decide)).1,
   (printTree_connector_line .NODE_BINARY_OP (some "+") 0 (createIntNode 2) (createIntNode 3)
      .null .null 2 1 (by decide)).2.2.2.2.1 rfl⟩

/-- C14 as stated fails: under a node with two children `printTree` writes the
connector line "/   \" (the glyphs three spaces apart), not the adjacent
glyphs "/\" of the statement. -/
theorem printTree_connector_not_adjacent :
    printTree (createBinaryOpNode (some "+") (createIntNode 2) (createIntNode 3)) 0 =
        "+\n/   \\\n2\n3\n" ∧
      printTree (createBinaryOpNode (some "+") (createIntNode 2) (createIntNode 3)) 0 ≠
        printTreeIndent 0 ++
          (displayText (createBinaryOpNode (some "+") (createIntNode 2) (createIntNode 3)) ++
            "\n") ++
          (printTreeIndent 0 ++ adjacentConnector 2 ++ "\n") ++
          emitAll ((createBinaryOpNode (some "+") (createIntNode 2)
            (createIntNode 3)).children.map (fun c => printTree c 0)) := by
  decide

/-- C15: under a node with at least one child, at every horizontal position
`p`, `printTreeFormatted` writes directly after the line of the node a line of
`p` spaces and a marker chosen by the child count alone: "|" for 1 child,
"/   \" for 2, "/ | \" for 3, "/ / | \" for 4; for a node without children
it writes the line of the node and no marker line. -/
theorem printTreeFormatted_branch_marker (type : NodeType) (value : Option String)
    (intValue : Int) (c0 c1 c2 c3 : TreeNode) (k level p : Int) :
    (0 < k →
      printTreeFormatted (.node type value intValue c0 c1 c2 c3 k) level p =
        printSpaces p ++ displayText (.node type value intValue c0 c1 c2 c3 k) ++ "\n" ++
          (printSpaces p ++ branchSymbols k) ++
          emitAll ((TreeNode.node type value intValue c0 c1 c2 c3 k).children.enum.map
            (fun ic => printTreeFormatted ic.2 (level + 1) (p + 4 * (ic.1 : Int))))) ∧
      (k = 1 → branchSymbols k = "|" ++ "\n") ∧
      (k = 2 → branchSymbols k = "/   \\" ++ "\n") ∧
      (k = 3 → branchSymbols k = "/ | \\" ++ "\n") ∧
      (k = 4 → branchSymbols k = "/ / | \\" ++ "\n") ∧
      (k = 0 →
        printTreeFormatted (.node type value intValue c0 c1 c2 c3 k) level p =
          printSpaces p ++ displayText (.node type value intValue c0 c1 c2 c3 k) ++ "\n") ∧
      printSpaces p = String.mk (List.replicate p.toNat ' ') := by
  refine ⟨printTreeFormatted_with_children type value intValue c0 c1 c2 c3 k level p,
    ?_, ?_, ?_, ?_, ?_, printSpaces_eq p⟩
  · rintro rfl; decide
  · rintro rfl; decide
  · rintro rfl; decide
  · rintro rfl; decide
  · rintro rfl
    simp [printTreeFormatted]

theorem printTreeFormatted_branch_marker_witness :
    printTreeFormatted (.node .NODE_BINARY_OP (some "+") 0 (createIntNode 2) (createIntNode 3)
        .null .null 2) 0 6 =
        printSpaces 6 ++ displayText (.node .NODE_BINARY_OP (some "+") 0 (createIntNode 2)
          (createIntNode 3) .null .null 2) ++ "\n" ++
          (printSpaces 6 ++ branchSymbols 2) ++
          emitAll ((TreeNode.node .NODE_BINARY_OP (some "+") 0 (createIntNode 2)
            (createIntNode 3) .null .null 2).children.enum.map
            (fun ic => printTreeFormatted ic.2 (0 + 1) (6 + 4 * (ic.1 : Int)))) ∧
      branchSymbols 2 = "/   \\" ++ "\n" ∧
      printTreeFormatted (createIntNode 2) 0 6 =
        printSpaces 6 ++ displayText (createIntNode 2) ++ "\n" :=
  ⟨(printTreeFormatted_branch_marker .NODE_BINARY_OP (some "+") 0 (createIntNode 2)
      (createIntNode 3) .null .null 2 0 6).1 (by decide),
   (printTreeFormatted_branch_marker .NODE_BINARY_OP (some "+") 0 (createIntNode 2)
      (createIntNode 3) .null .null 2 0 6).2.2.1 rfl,
   (printTreeFormatted_branch_marker .NODE_INTEGER none 2 .null .null .null .null 0 0
      6).2.2.2.2.2.1 rfl⟩

/-- C16: for a node with children `c_0 .. c_(n-1)`, every level and every
horizontal position `p`, the output of `printTreeFormatted(node, level, p)`
is the line of the node (`p` spaces, the display text, a line break), then
the branch-marker line (`p` spaces, the marker for the child count, a line
break), then the outputs of `printTreeFormatted(c_i, level + 1, p + 4 * i)`
for `i = 0 .. n-1` in child order.  So in the output of the node, after the
two lines of the node and the outputs of the children before it, the line of
a present child `i` is `p + 4 * i` spaces, its display text and a line break,
whatever its siblings are. -/
theorem printTreeFormatted_layout (type : NodeType) (value : Option String)
    (intValue : Int) (c0 c1 c2 c3 : TreeNode) (k level p : Int) (hk : 0 < k) :
    printTreeFormatted (.node type value intValue c0 c1 c2 c3 k) level p =
        (String.mk (List.replicate p.toNat ' ') ++
          displayText (.node type value intValue c0 c1 c2 c3 k) ++ "\n") ++
          (String.mk (List.replicate p.toNat ' ') ++
            (if k = 1 then "|" else if k = 2 then "/   \\" else if k = 3 then "/ | \\"
              else "/ / | \\") ++ "\n") ++
          emitAll ((TreeNode.node type value intValue c0 c1 c2 c3 k).children.enum.map
            (fun ic => printTreeFormatted ic.2 (level + 1) (p + 4 * (ic.1 : Int)))) ∧
      (emitAll [] = "" ∧ ∀ (s : String) (rest : List String),
        emitAll (s :: rest) = s ++ emitAll rest) ∧
      (∀ (i : Nat) (c : TreeNode),
        (TreeNode.node type value intValue c0 c1 c2 c3 k).children[i]? = some c →
        c ≠ .null →
        ∃ rest, printTreeFormatted (.node type value intValue c0 c1 c2 c3 k) level p =
          (String.mk (List.replicate p.toNat ' ') ++
            displayText (.node type value intValue c0 c1 c2 c3 k) ++ "\n") ++
          (String.mk (List.replicate p.toNat ' ') ++
            (if k = 1 then "|" else if k = 2 then "/   \\" else if k = 3 then "/ | \\"
              else "/ / | \\") ++ "\n") ++
          emitAll (((TreeNode.node type value intValue c0 c1 c2 c3 k).children.take i).enum.map
            (fun jc => printTreeFormatted jc.2 (level + 1) (p + 4 * (jc.1 : Int)))) ++
          (String.mk (List.replicate (p + 4 * (i : Int)).toNat ' ') ++ displayText c ++ "\n") ++
          rest) := by
  have hmarker : branchSymbols k =
      (if k = 1 then "|" else if k = 2 then "/   \\" else if k = 3 then "/ | \\"
        else "/ / | \\") ++ "\n" := by
    unfold branchSymbols
    split_ifs <;> rfl
  have hmain : printTreeFormatted (.node type value intValue c0 c1 c2 c3 k) level p =
      (String.mk (List.replicate p.toNat ' ') ++
        displayText (.node type value intValue c0 c1 c2 c3 k) ++ "\n") ++
        (String.mk (List.replicate p.toNat ' ') ++
          (if k = 1 then "|" else if k = 2 then "/   \\" else if k = 3 then "/ | \\"
            else "/ / | \\") ++ "\n") ++
        emitAll ((TreeNode.node type value intValue c0 c1 c2 c3 k).children.enum.map
          (fun ic => printTreeFormatted ic.2 (level + 1) (p + 4 * (ic.1 : Int)))) := by
    rw [printTreeFormatted_with_children type value intValue c0 c1 c2 c3 k level p hk,
      hmarker, printSpaces_eq]
    simp only [String.append_assoc]
  refine ⟨hmain, ⟨rfl, fun s rest => rfl⟩, ?_⟩
  intro i c hi hc
  obtain ⟨later, hsplit⟩ := emitAll_enum_split
    (fun ic => printTreeFormatted ic.2 (level + 1) (p + 4 * (ic.1 : Int))) _ i c hi
  cases c with
  | null => exact absurd rfl hc
  | node t v iv d0 d1 d2 d3 j =>
    obtain ⟨below, hchild⟩ :=
      printTreeFormatted_present t v iv d0 d1 d2 d3 j (level + 1) (p + 4 * (i : Int))
    refine ⟨below ++ later, ?_⟩
    rw [hmain, hsplit]
    simp only [hchild, printSpaces_eq, String.append_assoc]

theorem printTreeFormatted_layout_witness :
    printTreeFormatted (createBinaryOpNode (some "+") (createIntNode 2) (createIntNode 3)) 0 6 =
        "      +\n      /   \\\n      2\n          3\n" ∧
      ∃ rest,
        printTreeFormatted (.node .NODE_BINARY_OP (some "+") 0 (createIntNode 2)
            (createIntNode 3) .null .null 2) 0 6 =
          (String.mk (List.replicate (6 : Int).toNat ' ') ++
            displayText (.node .NODE_BINARY_OP (some "+") 0 (createIntNode 2)
              (createIntNode 3) .null .null 2) ++ "\n") ++
          (String.mk (List.replicate (6 : Int).toNat ' ') ++
            (if (2 : Int) = 1 then "|" else if (2 : Int) = 2 then "/   \\"
              else if (2 : Int) = 3 then "/ | \\" else "/ / | \\") ++ "\n") ++
          emitAll (((TreeNode.node .NODE_BINARY_OP (some "+") 0 (createIntNode 2)
            (createIntNode 3) .null .null 2).children.take 1).enum.map
            (fun jc => printTreeFormatted jc.2 (0 + 1) (6 + 4 * (jc.1 : Int)))) ++
          (String.mk (List.replicate (6 + 4 * ((1 : Nat) : Int)).toNat ' ') ++
            displayText (createIntNode 3) ++ "\n") ++
          rest :=
  ⟨((printTreeFormatted_layout .NODE_BINARY_OP (some "+") 0 (createIntNode 2)
      (createIntNode 3) .null .null 2 0 6 (by decide)).1).trans (by decide),
   (printTreeFormatted_layout .NODE_BINARY_OP (some "+") 0 (createIntNode 2) (createIntNode 3)
      .null .null 2 0 6 (by decide)).2.2 1 (createIntNode 3) (by decide) (by decide)⟩

/-- C20: the level argument of `printTreeFormatted` has no effect on what it
writes: for every tree, position and two levels the outputs are equal. -/
theorem printTreeFormatted_level_irrelevant (node : TreeNode) (l1 l2 p : Int) :
    printTreeFormatted node l1 p = printTreeFormatted node l2 p := by
  induction node generalizing l1 l2 p with
  | null => rfl
  | node type value intValue c0 c1 c2 c3 k ih0 ih1 ih2 ih3 =>
    simp only [printTreeFormatted]
    rw [ih0 (l1 + 1) (l2 + 1), ih1 (l1 + 1) (l2 + 1), ih2 (l1 + 1) (l2 + 1),
      ih3 (l1 + 1) (l2 + 1)]

/-- C13: on an absent table and on a table without entries `printSymbolTable`
writes the banner, the header row, the separator row, one "(empty)" row and
the closing banner, and no entry row.  After `n ≥ 1` `insertSymbol` calls
with pairwise distinct names on a fresh table it writes, between separator
row and closing banner, exactly `n` entry rows and nothing else, one row per
inserted name, the most recently inserted first, each row made of the name,
type, value and line number of its entry, left-justified in columns of 10,
6, 8 and 4 characters; no entry row is the "(empty)" row. -/
theorem printSymbolTable_rows :
    printSymbolTable none =
        "\n========== SYMBOL TABLE ==========\n" ++
        "| Name       | Type   | Value    | Line |\n" ++
        "|------------|--------|----------|------|\n" ++
        "| (empty)                              |\n" ++
        "==================================\n\n" ∧
      (∀ t : SymbolTable, t.head = [] →
        printSymbolTable (some t) =
          "\n========== SYMBOL TABLE ==========\n" ++
          "| Name       | Type   | Value    | Line |\n" ++
          "|------------|--------|----------|------|\n" ++
          "| (empty)                              |\n" ++
          "==================================\n\n") ∧
      (∀ es : List SymbolEntry, es ≠ [] → (es.map SymbolEntry.name).Nodup →
        runCalls (es.map (fun e => SymbolCall.insert e.name e.type e.value e.lineNumber)) =
          some { head := es.reverse, count := es.length } ∧
        printSymbolTable
            (runCalls (es.map
              (fun e => SymbolCall.insert e.name e.type e.value e.lineNumber))) =
          "\n========== SYMBOL TABLE ==========\n" ++
          "| Name       | Type   | Value    | Line |\n" ++
          "|------------|--------|----------|------|\n" ++
          emitAll (es.reverse.map entryRow) ++
          "==================================\n\n" ∧
        (es.reverse.map entryRow).length = es.length) ∧
      (emitAll [] = "" ∧ ∀ (s : String) (rest : List String),
        emitAll (s :: rest) = s ++ emitAll rest) ∧
      (∀ e : SymbolEntry, entryRow e =
        "| " ++ (e.name ++ String.mk (List.replicate (10 - e.name.length) ' ')) ++ " | " ++
          (e.type ++ String.mk (List.replicate (6 - e.type.length) ' ')) ++ " | " ++
          (formatInt e.value ++
            String.mk (List.replicate (8 - (formatInt e.value).length) ' ')) ++ " | " ++
          (formatInt e.lineNumber ++
            String.mk (List.replicate (4 - (formatInt e.lineNumber).length) ' ')) ++
          " |\n") ∧
      (∀ v : Int, formatInt v =
        if v < 0 then "-" ++ Nat.repr v.natAbs else Nat.repr v.natAbs) ∧
      (∀ e : SymbolEntry, entryRow e ≠ "| (empty)                              |\n") := by
  refine ⟨?_, ?_, ?_, ⟨rfl, fun s rest => rfl⟩, fun e => rfl, fun v => rfl,
    entryRow_ne_emptyRow⟩
  · simp only [printSymbolTable, headerRow_eq]
    rfl
  · intro t ht
    simp only [printSymbolTable, ht, headerRow_eq]
    rfl
  · intro es hne hnodup
    have hrun : runCalls
        (es.map (fun e => SymbolCall.insert e.name e.type e.value e.lineNumber)) =
        some { head := es.reverse, count := es.length } := runCalls_insertCall es hnodup
    refine ⟨hrun, ?_, by simp⟩
    rw [hrun, printSymbolTable_of_entries _ (by simpa using hne), headerRow_eq]
    rfl

set_option maxRecDepth 20000 in
theorem printSymbolTable_rows_witness :
    printSymbolTable
        (runCalls [.insert "a" "int" 1 3, .insert "b" "char" 2 4, .insert "c" "int" (-3) 5]) =
      "\n========== SYMBOL TABLE ==========\n" ++
      "| Name       | Type   | Value    | Line |\n" ++
      "|------------|--------|----------|------|\n" ++
      "| c          | int    | -3       | 5    |\n" ++
      "| b          | char   | 2        | 4    |\n" ++
      "| a          | int    | 1        | 3    |\n" ++
      "==================================\n\n" :=
  ((printSymbolTable_rows.2.2.1
    [⟨"a", "int", 1, 3⟩, ⟨"b", "char", 2, 4⟩, ⟨"c", "int", -3, 5⟩]
    (by decide) (by decide)).2.1).trans (by decide)

set_option maxRecDepth 20000 in
/-- C18 at the table without entries: the header row and the separator row
are 41 characters wide, as is the row of an entry whose fields fit their
columns, but the "(empty)" row that `printSymbolTable` writes between them
and the closing banner is 40 characters wide. -/
theorem printSymbolTable_empty_row_width :
    printSymbolTable createSymbolTable =
        "\n========== SYMBOL TABLE ==========\n" ++
        "| Name       | Type   | Value    | Line |\n" ++
        "|------------|--------|----------|------|\n" ++
        "| (empty)                              |\n" ++
        "==================================\n\n" ∧
      rowWidth headerRow = 41 ∧ rowWidth separatorRow = 41 ∧
      rowWidth (entryRow ⟨"x", "int", 1, 5⟩) = 41 ∧
      rowWidth emptyRow = 40 := by
  decide

/-- C19: after every finite sequence of `insertSymbol` and
`updateSymbolValue` calls on the table `createSymbolTable()` returns, the
counter equals the number of entries of the chain, which equals the number
of distinct names `insertSymbol` was called with; the counter is 0 at the
start and no further call makes it smaller. -/
theorem runCalls_count_invariant (calls : List SymbolCall) :
    ∃ t, runCalls calls = some t ∧
      t.count = (t.head.length : Int) ∧
      t.head.length = (insertedNames calls).dedup.length ∧
      runCalls [] = some { head := [], count := 0 } ∧
      ∀ more : List SymbolCall, ∃ t', runCalls (calls ++ more) = some t' ∧
        t.count ≤ t'.count := by
  obtain ⟨t, ht, hcount, hnames⟩ := runCalls_state calls
  refine ⟨t, ht, hcount, ?_, rfl, ?_⟩
  · have hnodup : (entryNames (some t)).Nodup := by
      rw [← ht]
      exact foldl_run_names_nodup calls createSymbolTable
        (by simp [createSymbolTable, entryNames])
    have hperm : (entryNames (some t)).Perm (insertedNames calls).dedup :=
      (List.perm_ext_iff_of_nodup hnodup (List.nodup_dedup _)).mpr
        (fun n => by rw [hnames n, List.mem_dedup])
    have hlen := hperm.length_eq
    simpa [entryNames] using hlen
  · intro more
    obtain ⟨t0, t', ht0, ht', hle⟩ := runCalls_count_mono calls more
    rw [ht] at ht0
    cases ht0
    exact ⟨t', ht', hle⟩


end SyntaxTree
